import Mathlib

/-!
Shallow embedding of the maze generator / maze solver program
(`src/maze.rs`, `src/generator.rs`, `src/solver.rs`, `src/config.rs`,
`src/error.rs`) and proofs about the claims of its specification.

Modelling conventions:

* Rust `i32` values are modelled as `Int` and `u32` values as `Nat`.
  All arithmetic relevant to the claims below stays far away from the
  32-bit boundaries, so the idealised integers agree with the machine
  integers on every input we reason about.  Where Rust casts a `u32` to
  `i32` and divides (`config.cell_width() as i32 / 2`) we write
  `((cw / 2 : Nat) : Int)`, which is the same value for the in-range
  inputs considered here.  The truncating division of `Point.into_coord`
  (Rust `/` on `i32`) is modelled with `Int.tdiv`, which has exactly the
  Rust rounding behaviour.
* `HashSet<Wall>` / `HashSet<Coord>` fields of `Maze` are modelled as
  `Finset`.  The interior `HashSet`s of the algorithms whose iteration
  order can influence behaviour (`Kruskal.sets`, `Prim.cells`) are
  modelled as `List`s; where the original iteration order is genuinely
  arbitrary it is surfaced as an explicit input (see `Kruskal.new`).
* The random number generator (`StdRng`) is modelled possibilistically
  by an `Oracle` of per-tick choices: `shuffle` stands for
  `random.shuffle` (a permutation pick), `genBool` for `random.gen()`,
  `chooseIdx`/`pickCell` for `random.choose`.  Every outcome of the real
  generator corresponds to some oracle and conversely.
* Rust `Vec` push/pop act on the end of the vector; generator/solver
  stacks are modelled as Lean lists with the head playing the role of
  the vector's end.
* A Rust function that can `panic!`/`unreachable!()` or index a missing
  map key is modelled with an `Option` result, `none` meaning the panic.
* `tick` mutates the maze in place and returns `Result<()>`; we model it
  as returning the (possibly partially updated) maze together with an
  `Option Err`.
-/

set_option maxRecDepth 4000

namespace MazeCode

/-! ### Basic data model (`maze.rs`) -/

inductive Orientation where
  | Horizontal : Orientation
  | Vertical : Orientation
  deriving DecidableEq, Repr

inductive Direction where
  | North : Direction
  | East : Direction
  | South : Direction
  | West : Direction
  deriving DecidableEq, Repr

structure Point where
  x : Int
  y : Int
  deriving DecidableEq, Repr

structure Coord where
  x : Int
  y : Int
  deriving DecidableEq, Repr

structure Wall where
  center : Point
  orientation : Orientation
  border : Bool
  size : Nat
  deriving DecidableEq, Repr

/-- `config.rs`: the fields relevant to the core (cell size in pixels and
grid dimensions in cells).  `cell_width()` and `cell_height()` both
return `cell_size`. -/
structure Config where
  cell_size : Nat
  width : Nat
  height : Nat
  deriving DecidableEq, Repr

def Config.cell_width (cfg : Config) : Nat := cfg.cell_size

def Config.cell_height (cfg : Config) : Nat := cfg.cell_size

def Config.maze_width (cfg : Config) : Nat := cfg.width

def Config.maze_height (cfg : Config) : Nat := cfg.height

/-- `Point::into_coord`.  Rust divides with truncating `i32` division. -/
def Point.into_coord (p : Point) (cell_width cell_height : Nat) : Coord :=
  { x := Int.tdiv (p.x - ((cell_width / 2 : Nat) : Int)) (cell_width : Int),
    y := Int.tdiv (p.y - ((cell_height / 2 : Nat) : Int)) (cell_height : Int) }

/-- `Coord::into_point`. -/
def Coord.into_point (c : Coord) (cell_width cell_height : Nat) : Point :=
  { x := c.x * (cell_width : Int) + ((cell_width / 2 : Nat) : Int),
    y := c.y * (cell_height : Int) + ((cell_height / 2 : Nat) : Int) }

/-- `Coord::manhattan_dist` (result is a `u32`). -/
def Coord.manhattan_dist (c other : Coord) : Nat :=
  ((c.x - other.x).natAbs + (c.y - other.y).natAbs)

/-- `Coord::north_wall`. -/
def Coord.north_wall (c : Coord) (cfg : Config) : Wall :=
  let as_point := c.into_point cfg.cell_width cfg.cell_height
  let offset : Int :=
    if cfg.cell_height % 2 = 0 then ((cfg.cell_height / 2 : Nat) : Int)
    else (((cfg.cell_height + 1) / 2 : Nat) : Int)
  { center := { x := as_point.x, y := as_point.y - offset },
    orientation := .Horizontal,
    border := decide (c.y = 0),
    size := cfg.cell_height }

/-- `Coord::east_wall`. -/
def Coord.east_wall (c : Coord) (cfg : Config) : Wall :=
  let as_point := c.into_point cfg.cell_width cfg.cell_height
  { center := { x := as_point.x + ((cfg.cell_width / 2 : Nat) : Int), y := as_point.y },
    orientation := .Vertical,
    border := decide (c.x = ((cfg.maze_width - 1 : Nat) : Int)),
    size := cfg.cell_width }

/-- `Coord::south_wall`. -/
def Coord.south_wall (c : Coord) (cfg : Config) : Wall :=
  let as_point := c.into_point cfg.cell_width cfg.cell_height
  { center := { x := as_point.x, y := as_point.y + ((cfg.cell_height / 2 : Nat) : Int) },
    orientation := .Horizontal,
    border := decide (c.y = ((cfg.maze_height - 1 : Nat) : Int)),
    size := cfg.cell_height }

/-- `Coord::west_wall`. -/
def Coord.west_wall (c : Coord) (cfg : Config) : Wall :=
  let as_point := c.into_point cfg.cell_width cfg.cell_height
  let offset : Int :=
    if cfg.cell_width % 2 = 0 then ((cfg.cell_width / 2 : Nat) : Int)
    else (((cfg.cell_width + 1) / 2 : Nat) : Int)
  { center := { x := as_point.x - offset, y := as_point.y },
    orientation := .Vertical,
    border := decide (c.x = 0),
    size := cfg.cell_width }

/-- `Coord::walls` (the `[Wall; 4]` array as a list). -/
def Coord.wallsOf (c : Coord) (cfg : Config) : List Wall :=
  [c.north_wall cfg, c.east_wall cfg, c.south_wall cfg, c.west_wall cfg]

/-- `Coord::wall`. -/
def Coord.wall (c : Coord) (d : Direction) (cfg : Config) : Wall :=
  match d with
  | .North => c.north_wall cfg
  | .East => c.east_wall cfg
  | .South => c.south_wall cfg
  | .West => c.west_wall cfg

/-- `Coord::valid_coord`.  The bounds `maze_width - 1` / `maze_height - 1`
are computed in `u32` (for the grids considered here, `W, H >= 1`, this
agrees with the Lean `Nat` subtraction). -/
def Coord.valid_coord (c : Coord) (maze_width maze_height : Nat) : Bool :=
  decide (0 ≤ c.x) && decide (c.x ≤ ((maze_width - 1 : Nat) : Int)) &&
  decide (0 ≤ c.y) && decide (c.y ≤ ((maze_height - 1 : Nat) : Int))

/-- `Coord::neighbour`. -/
def Coord.neighbour (c : Coord) (d : Direction) (maze_width maze_height : Nat) :
    Option Coord :=
  let candidate : Coord :=
    match d with
    | .North => { x := c.x, y := c.y - 1 }
    | .East => { x := c.x + 1, y := c.y }
    | .South => { x := c.x, y := c.y + 1 }
    | .West => { x := c.x - 1, y := c.y }
  if candidate.valid_coord maze_width maze_height then some candidate else none

/-- `Coord::neighbours`: the valid neighbours, in order North, East,
South, West. -/
def Coord.neighbours (c : Coord) (maze_width maze_height : Nat) :
    List (Coord × Direction) :=
  ([(c.neighbour .North maze_width maze_height, Direction.North),
    (c.neighbour .East maze_width maze_height, Direction.East),
    (c.neighbour .South maze_width maze_height, Direction.South),
    (c.neighbour .West maze_width maze_height, Direction.West)].filter
      (fun cd => cd.1.isSome)).map (fun cd => (cd.1.getD c, cd.2))

/-- `Wall::removable`. -/
def Wall.removable (w : Wall) : Bool := !w.border

/-! ### Errors (`error.rs`) -/

inductive Err where
  | NotNeighbours : Coord → Coord → Err
  | BorderWall : Wall → Err
  | MissingSet : Coord → Err
  | UnsupportedGenerator : Err
  | UnsupportedSolver : Err
  | ImpossibleMaze : Err
  deriving DecidableEq, Repr

/-! ### The maze (`maze.rs`) -/

structure Maze where
  config : Config
  walls : Finset Wall
  start : Coord
  /-- the `end` field of the Rust struct (`end` is a Lean keyword) -/
  endC : Coord
  explored : Finset Coord
  highlight_bright : Finset Coord
  highlight_medium : Finset Coord
  highlight_dark : Finset Coord
  deriving DecidableEq

/-- The coordinates enumerated by `Maze::new` (`y` outer loop, `x` inner
loop); these are exactly the keys of `maze.cells`. -/
def Config.allCoords (cfg : Config) : List Coord :=
  (List.range cfg.maze_height).flatMap
    (fun (y : Nat) => (List.range cfg.maze_width).map
      (fun (x : Nat) => ⟨(x : Int), (y : Int)⟩))

/-- The wall set built by the loops of `Maze::new`. -/
def Config.initialWalls (cfg : Config) : Finset Wall :=
  cfg.allCoords.foldl
    (fun acc c => (c.wallsOf cfg).foldl (fun a w => insert w a) acc) ∅

/-- `Maze::new`, for a configuration with fixed start/end coordinates
(the random start/end path of the constructor is not needed by the
claims; the walls, cells and marker sets are built exactly as in the
source). -/
def Maze.new (cfg : Config) (start endC : Coord) : Maze :=
  { config := cfg, walls := cfg.initialWalls, start := start, endC := endC,
    explored := ∅, highlight_bright := ∅, highlight_medium := ∅, highlight_dark := ∅ }

def Maze.maze_width (m : Maze) : Nat := m.config.maze_width

def Maze.maze_height (m : Maze) : Nat := m.config.maze_height

def Maze.north_wall (m : Maze) (c : Coord) : Wall := c.north_wall m.config

def Maze.east_wall (m : Maze) (c : Coord) : Wall := c.east_wall m.config

def Maze.south_wall (m : Maze) (c : Coord) : Wall := c.south_wall m.config

def Maze.west_wall (m : Maze) (c : Coord) : Wall := c.west_wall m.config

def Maze.wall (m : Maze) (c : Coord) (d : Direction) : Wall := c.wall d m.config

def Maze.neighbour (m : Maze) (c : Coord) (d : Direction) : Option Coord :=
  c.neighbour d m.config.maze_width m.config.maze_height

def Maze.neighbours (m : Maze) (c : Coord) : List (Coord × Direction) :=
  c.neighbours m.config.maze_width m.config.maze_height

/-- `Maze::connected_neighbours`: neighbours whose connecting wall has
been removed. -/
def Maze.connected_neighbours (m : Maze) (c : Coord) : List (Coord × Direction) :=
  (m.neighbours c).filter (fun nd => decide (m.wall c nd.2 ∉ m.walls))

/-- `Maze::divided_coords`. -/
def Maze.divided_coords (m : Maze) (w : Wall) : Coord × Coord :=
  match w.orientation with
  | .Horizontal =>
    let up := (Point.mk w.center.x
        (w.center.y - ((m.config.cell_height / 2 : Nat) : Int))).into_coord
        m.config.cell_width m.config.cell_height
    let down := (Point.mk w.center.x
        (w.center.y + ((m.config.cell_height / 2 : Nat) : Int))).into_coord
        m.config.cell_width m.config.cell_height
    (up, down)
  | .Vertical =>
    let left := (Point.mk (w.center.x - ((m.config.cell_width / 2 : Nat) : Int))
        w.center.y).into_coord m.config.cell_width m.config.cell_height
    let right := (Point.mk (w.center.x + ((m.config.cell_width / 2 : Nat) : Int))
        w.center.y).into_coord m.config.cell_width m.config.cell_height
    (left, right)

/-- `Maze::link`: removes the wall between two adjacent coordinates,
refusing border walls.  On error the maze is returned unchanged (the
source returns before mutating). -/
def Maze.link (m : Maze) (c1 c2 : Coord) : Maze × Option Err :=
  match (m.neighbours c1).find? (fun nd => decide (nd.1 = c2)) with
  | some nd =>
    let w : Wall :=
      match nd.2 with
      | .North => m.north_wall c1
      | .East => m.east_wall c1
      | .South => m.south_wall c1
      | .West => m.west_wall c1
    if w.removable then ({ m with walls := m.walls.erase w }, none)
    else (m, some (.BorderWall w))
  | none => (m, some (.NotNeighbours c1 c2))


/-- Rust `<[T]>::binary_search_by_key` inner loop (compares the key of
the probed element with `k`; `Less` moves `left`, `Greater` moves
`right`, `Equal` returns the probe index).  Rust's loop terminates
because the interval shrinks; here structural fuel (`l.length + 1` is
always enough) plays that role. -/
def binSearchLoop (key : α → Nat) (k : Nat) (l : List α) :
    Nat → Nat → Nat → Nat
  | 0, left, _right => left
  | fuel + 1, left, right =>
    if left < right then
      let mid := (left + right) / 2
      match l[mid]? with
      | none => left
      | some a =>
        if key a < k then binSearchLoop key k l fuel (mid + 1) right
        else if k < key a then binSearchLoop key k l fuel left mid
        else mid
    else left

/-- The insertion position used by the priority-queue solvers:
`binary_search_by_key` returns `Ok(pos)` or `Err(pos)` and the caller
inserts at `pos` in both cases. -/
def binSearchPos (key : α → Nat) (k : Nat) (l : List α) : Nat :=
  binSearchLoop key k l (l.length + 1) 0 l.length

/-- `highlight_path_from_cell` of the BFS/Dijkstra/Greedy/A* solvers:
walk the parent chain inserting every coordinate into
`highlight_medium` (here threaded as an accumulator). -/
def pathFold : List Coord → Finset Coord → Finset Coord
  | [], acc => acc
  | c :: rest, acc => pathFold rest (insert c acc)

namespace Sol

/-- solver `DFS` -/
structure DFS where
  current : Coord
  goal : Coord
  stack : List Coord
  deriving DecidableEq, Repr

def DFS.new (m : Maze) : DFS := ⟨m.start, m.endC, []⟩

def DFS.available_neighbour (s : DFS) (m : Maze) : Option (Coord × Direction) :=
  if m.endC = s.current then none
  else
    ((m.connected_neighbours s.current).filter
        (fun nd => decide (nd.1 ∉ m.explored))).find?
      (fun nd => decide (nd.1 ∉ s.stack))

def DFS.is_done (s : DFS) : Bool := decide (s.goal = s.current)

def DFS.tick (s : DFS) (m : Maze) : DFS × Maze × Option Err :=
  let m1 : Maze := { m with highlight_bright := ∅ }
  match s.available_neighbour m1 with
  | some nd =>
    let m2 : Maze := { m1 with explored := insert nd.1 m1.explored,
                               highlight_medium := insert nd.1 m1.highlight_medium }
    let s1 : DFS := { s with stack := s.current :: s.stack, current := nd.1 }
    (s1, { m2 with highlight_bright := insert s1.current m2.highlight_bright }, none)
  | none =>
    let m2 : Maze := { m1 with highlight_medium := m1.highlight_medium.erase s.current }
    match s.stack with
    | [] => (s, m2, some .ImpossibleMaze)
    | c :: rest =>
      let s1 : DFS := { s with current := c, stack := rest }
      (s1, { m2 with highlight_bright := insert s1.current m2.highlight_bright }, none)

/-- `BFSNode` with the `previous` chain flattened. -/
structure BFSNode where
  coord : Coord
  previous : List Coord
  deriving DecidableEq, Repr

structure BFS where
  current : BFSNode
  goal : Coord
  queue : List BFSNode
  deriving DecidableEq, Repr

def BFS.new (m : Maze) : BFS := ⟨⟨m.start, []⟩, m.endC, []⟩

def BFS.available_neighbours (s : BFS) (m : Maze) : List (Coord × Direction) :=
  if m.endC = s.current.coord then []
  else
    ((m.connected_neighbours s.current.coord).filter
        (fun nd => decide (nd.1 ∉ m.explored))).filter
      (fun nd => (s.queue.find? (fun hc => decide (hc.coord = nd.1))).isNone)

def BFS.highlight_path (s : BFS) (m : Maze) : Maze :=
  { m with highlight_medium := (pathFold (s.current.coord :: s.current.previous) ∅) }

def BFS.is_done (s : BFS) : Bool := decide (s.goal = s.current.coord)

def BFS.tick (s : BFS) (m : Maze) : BFS × Maze × Option Err :=
  let m1 : Maze := { m with highlight_bright := ∅ }
  let avail := s.available_neighbours m1
  let s1 : BFS := { s with queue :=
      (s.queue ++ avail.map (fun nd => ⟨nd.1, s.current.coord :: s.current.previous⟩)) }
  let m2 : Maze := { m1 with highlight_dark :=
      (avail.foldl (fun a nd => insert nd.1 a) m1.highlight_dark) }
  match s1.queue with
  | [] => (s1, m2, some .ImpossibleMaze)
  | n :: rest =>
    let s2 : BFS := { s1 with current := n, queue := rest }
    let m3 : Maze := { m2 with highlight_dark := m2.highlight_dark.erase n.coord }
    let m4 : Maze := { m3 with explored := insert n.coord m3.explored }
    let m5 : Maze := { m4 with highlight_bright := insert n.coord m4.highlight_bright }
    (s2, s2.highlight_path m5, none)

/-- `DijkstraNode` with the `previous` chain flattened into a list of
`(coord, dist)` pairs. -/
structure DijkstraNode where
  coord : Coord
  dist : Nat
  previous : List (Coord × Nat)
  deriving DecidableEq, Repr

structure Dijkstra where
  current : DijkstraNode
  goal : Coord
  queue : List DijkstraNode
  deriving DecidableEq, Repr

def Dijkstra.new (m : Maze) : Dijkstra := ⟨⟨m.start, 0, []⟩, m.endC, []⟩

def Dijkstra.available_neighbours (s : Dijkstra) (m : Maze) :
    List (Coord × Direction) :=
  if m.endC = s.current.coord then []
  else
    ((m.connected_neighbours s.current.coord).filter
        (fun nd => decide (nd.1 ∉ m.explored))).filter
      (fun nd => (s.queue.find? (fun hc => decide (hc.coord = nd.1))).isNone)

def Dijkstra.highlight_path (s : Dijkstra) (m : Maze) : Maze :=
  { m with highlight_medium :=
      (pathFold (s.current.coord :: s.current.previous.map Prod.fst) ∅) }

def Dijkstra.is_done (s : Dijkstra) : Bool := decide (s.goal = s.current.coord)

def Dijkstra.tick (s : Dijkstra) (m : Maze) : Dijkstra × Maze × Option Err :=
  let m1 : Maze := { m with highlight_bright := ∅ }
  let m2 : Maze := { m1 with explored := insert s.current.coord m1.explored }
  let avail := s.available_neighbours m2
  let qm := avail.foldl (fun (acc : List DijkstraNode × Maze) nd =>
      let nn : DijkstraNode := ⟨nd.1, s.current.dist + 1,
        (s.current.coord, s.current.dist) :: s.current.previous⟩
      (List.insertIdx (binSearchPos (fun n => n.dist) nn.dist acc.1) nn acc.1,
       { acc.2 with highlight_dark := insert nd.1 acc.2.highlight_dark }))
    (s.queue, m2)
  match qm.1 with
  | [] => ({ s with queue := qm.1 }, qm.2, some .ImpossibleMaze)
  | n :: rest =>
    let s2 : Dijkstra := { s with current := n, queue := rest }
    let m3 : Maze := { qm.2 with highlight_dark := qm.2.highlight_dark.erase n.coord }
    let m4 : Maze := { m3 with highlight_bright := insert n.coord m3.highlight_bright }
    (s2, s2.highlight_path m4, none)

/-- `GreedyNode` with the `previous` chain flattened into a list of
`(coord, score)` pairs. -/
structure GreedyNode where
  coord : Coord
  score : Nat
  previous : List (Coord × Nat)
  deriving DecidableEq, Repr

structure Greedy where
  current : GreedyNode
  goal : Coord
  queue : List GreedyNode
  deriving DecidableEq, Repr

def Greedy.new (m : Maze) : Greedy := ⟨⟨m.start, 0, []⟩, m.endC, []⟩

def Greedy.heuristic (s : Greedy) (c : Coord) : Nat := s.goal.manhattan_dist c

def Greedy.available_neighbours (s : Greedy) (m : Maze) :
    List (Coord × Direction) :=
  if m.endC = s.current.coord then []
  else
    ((m.connected_neighbours s.current.coord).filter
        (fun nd => decide (nd.1 ∉ m.explored))).filter
      (fun nd => (s.queue.find? (fun hc => decide (hc.coord = nd.1))).isNone)

def Greedy.highlight_path (s : Greedy) (m : Maze) : Maze :=
  { m with highlight_medium :=
      (pathFold (s.current.coord :: s.current.previous.map Prod.fst) ∅) }

def Greedy.is_done (s : Greedy) : Bool := decide (s.goal = s.current.coord)

def Greedy.tick (s : Greedy) (m : Maze) : Greedy × Maze × Option Err :=
  let m1 : Maze := { m with highlight_bright := ∅ }
  let m2 : Maze := { m1 with explored := insert s.current.coord m1.explored }
  let avail := s.available_neighbours m2
  let qm := avail.foldl (fun (acc : List GreedyNode × Maze) nd =>
      let nn : GreedyNode := ⟨nd.1, s.heuristic nd.1,
        (s.current.coord, s.current.score) :: s.current.previous⟩
      (List.insertIdx (binSearchPos (fun n => n.score) nn.score acc.1) nn acc.1,
       { acc.2 with highlight_dark := insert nd.1 acc.2.highlight_dark }))
    (s.queue, m2)
  match qm.1 with
  | [] => ({ s with queue := qm.1 }, qm.2, some .ImpossibleMaze)
  | n :: rest =>
    let s2 : Greedy := { s with current := n, queue := rest }
    let m3 : Maze := { qm.2 with highlight_dark := qm.2.highlight_dark.erase n.coord }
    let m4 : Maze := { m3 with highlight_bright := insert n.coord m3.highlight_bright }
    (s2, s2.highlight_path m4, none)

/-- `AStarNode` with the `previous` chain flattened into a list of
`(coord, dist, score)` triples. -/
structure AStarNode where
  coord : Coord
  dist : Nat
  score : Nat
  previous : List (Coord × Nat × Nat)
  deriving DecidableEq, Repr

structure AStar where
  current : AStarNode
  goal : Coord
  queue : List AStarNode
  deriving DecidableEq, Repr

def AStar.new (m : Maze) : AStar := ⟨⟨m.start, 0, 0, []⟩, m.endC, []⟩

def AStar.heuristic (s : AStar) (c : Coord) : Nat := s.goal.manhattan_dist c

def AStar.available_neighbours (s : AStar) (m : Maze) :
    List (Coord × Direction) :=
  if m.endC = s.current.coord then []
  else
    ((m.connected_neighbours s.current.coord).filter
        (fun nd => decide (nd.1 ∉ m.explored))).filter
      (fun nd => (s.queue.find? (fun hc => decide (hc.coord = nd.1))).isNone)

def AStar.highlight_path (s : AStar) (m : Maze) : Maze :=
  { m with highlight_medium :=
      (pathFold (s.current.coord :: s.current.previous.map Prod.fst) ∅) }

def AStar.is_done (s : AStar) : Bool := decide (s.goal = s.current.coord)

def AStar.tick (s : AStar) (m : Maze) : AStar × Maze × Option Err :=
  let m1 : Maze := { m with highlight_bright := ∅ }
  let m2 : Maze := { m1 with explored := insert s.current.coord m1.explored }
  let avail := s.available_neighbours m2
  let qm := avail.foldl (fun (acc : List AStarNode × Maze) nd =>
      let dist_to_neighbour := s.current.dist + 1
      let nn : AStarNode := ⟨nd.1, dist_to_neighbour,
        dist_to_neighbour + s.heuristic nd.1,
        (s.current.coord, s.current.dist, s.current.score) :: s.current.previous⟩
      (List.insertIdx (binSearchPos (fun n => n.score) nn.score acc.1) nn acc.1,
       { acc.2 with highlight_dark := insert nd.1 acc.2.highlight_dark }))
    (s.queue, m2)
  match qm.1 with
  | [] => ({ s with queue := qm.1 }, qm.2, some .ImpossibleMaze)
  | n :: rest =>
    let s2 : AStar := { s with current := n, queue := rest }
    let m3 : Maze := { qm.2 with highlight_dark := qm.2.highlight_dark.erase n.coord }
    let m4 : Maze := { m3 with highlight_bright := insert n.coord m3.highlight_bright }
    (s2, s2.highlight_path m4, none)

end Sol

/-- `SolverType`. -/
inductive SolverType where
  | DFS : SolverType
  | BFS : SolverType
  | Dijkstra : SolverType
  | Greedy : SolverType
  | AStar : SolverType
  deriving DecidableEq, Repr

/-- The closed tagged variant behind `Box<dyn Solver>`. -/
inductive SolState where
  | dfs : Sol.DFS → SolState
  | bfs : Sol.BFS → SolState
  | dijkstra : Sol.Dijkstra → SolState
  | greedy : Sol.Greedy → SolState
  | astar : Sol.AStar → SolState
  deriving DecidableEq, Repr

/-- `SolverType::init`. -/
def SolverType.init (t : SolverType) (m : Maze) : SolState :=
  match t with
  | .DFS => .dfs (Sol.DFS.new m)
  | .BFS => .bfs (Sol.BFS.new m)
  | .Dijkstra => .dijkstra (Sol.Dijkstra.new m)
  | .Greedy => .greedy (Sol.Greedy.new m)
  | .AStar => .astar (Sol.AStar.new m)

/-- `Solver::is_done` through the trait object. -/
def solIsDone : SolState → Bool
  | .dfs s => s.is_done
  | .bfs s => s.is_done
  | .dijkstra s => s.is_done
  | .greedy s => s.is_done
  | .astar s => s.is_done

/-- `Solver::tick` through the trait object. -/
def solTick : SolState → Maze → SolState × Maze × Option Err
  | .dfs s, m => let r := s.tick m; (.dfs r.1, r.2)
  | .bfs s, m => let r := s.tick m; (.bfs r.1, r.2)
  | .dijkstra s, m => let r := s.tick m; (.dijkstra r.1, r.2)
  | .greedy s, m => let r := s.tick m; (.greedy r.1, r.2)
  | .astar s, m => let r := s.tick m; (.astar r.1, r.2)


/-- Concrete 2×2 maze with all walls standing, used by the C4 witness. -/
def mazeFullC4 : Maze := Maze.new ⟨2, 2, 2⟩ ⟨0, 0⟩ ⟨1, 1⟩

/-! ### Generators (`generator.rs`) -/

/-- Possibilistic model of the `StdRng` uses of a single generator tick
(see the file header): every outcome of the real RNG corresponds to
some oracle value and conversely. -/
structure Oracle where
  /-- `random.shuffle` on a neighbour list (a permutation pick) -/
  shuffle : List (Coord × Direction) → List (Coord × Direction)
  /-- `random.gen::<bool>()` -/
  genBool : Bool
  /-- `random.choose` on a slice: the chosen index -/
  chooseIdx : Nat
  /-- `random.choose` on Prim's frontier cell list (`unwrap` is guarded
  by the emptiness check in `random_cell`) -/
  pickCell : List Coord → Coord

/-- `random.choose(&v)`: `None` on an empty slice, otherwise an element
(selected here by the oracle index, reduced modulo the length). -/
def listChoose (i : Nat) (l : List α) : Option α := l[i % l.length]?

/-- Identity oracle used for concrete traces in which every shuffled
list has at most one element (so any permutation acts as the
identity). -/
def idOracle : Oracle := ⟨id, false, 0, fun l => l.headD ⟨0, 0⟩⟩

namespace Gen

/-- generator `DFS` (the recursive backtracker) -/
structure DFS where
  current : Option Coord
  stack : List Coord
  deriving DecidableEq, Repr

def DFS.new (m : Maze) : DFS := ⟨some m.start, []⟩

def DFS.available_neighbour (s : DFS) (m : Maze) (o : Oracle) :
    Option (Coord × Direction) :=
  match s.current with
  | none => none
  | some current =>
    if m.endC = current then none
    else (o.shuffle (m.neighbours current)).find? (fun nd => decide (nd.1 ∉ m.explored))

def DFS.is_done (s : DFS) : Bool := s.current.isNone

def DFS.tick (s : DFS) (m : Maze) (o : Oracle) : DFS × Maze × Option Err :=
  let m1 : Maze := { m with highlight_bright := ∅ }
  match s.current with
  | none => (s, m1, none)
  | some current =>
    let m2 : Maze := { m1 with highlight_bright := insert current m1.highlight_bright,
                               highlight_medium := insert current m1.highlight_medium,
                               explored := insert current m1.explored }
    match s.available_neighbour m2 o with
    | some nd =>
      let lr := m2.link current nd.1
      match lr.2 with
      | some e => (s, lr.1, some e)
      | none => (⟨some nd.1, current :: s.stack⟩, lr.1, none)
    | none =>
      let m3 : Maze := { m2 with highlight_medium := m2.highlight_medium.erase current }
      (⟨s.stack.head?, s.stack.tail⟩, m3, none)

/-- Harness used for concrete error-free traces: iterate `DFS.tick`,
keeping state and maze. -/
def DFS.run (fuel : Nat) (sm : DFS × Maze) (o : Oracle) : DFS × Maze :=
  match fuel with
  | 0 => sm
  | n + 1 =>
    let r := sm.1.tick sm.2 o
    DFS.run n (r.1, r.2.1) o

inductive JoinResult where
  | Joined : JoinResult
  | Nop : JoinResult
  deriving DecidableEq, Repr

/-- generator `Kruskal`; the `HashSet<Coord>` sets are modelled as
lists (`List.insert` prepends exactly when the element is new, like
`HashSet::insert`). -/
structure Kruskal where
  walls : List Wall
  sets : List (List Coord)
  deriving DecidableEq, Repr

/-- `Kruskal::new`.  `wallOrder` is the iteration order of the
`maze.walls` hash set (arbitrary and run-dependent in Rust, hence an
explicit input here) and `shuffleWalls` is the `random.shuffle`
permutation pick; `cellOrder` is the iteration order of
`maze.cells.keys()` (the resulting singleton sets are pairwise
disjoint, so this order influences nothing observable). -/
def Kruskal.new (m : Maze) (wallOrder : List Wall)
    (shuffleWalls : List Wall → List Wall) (cellOrder : List Coord) : Kruskal :=
  { walls := shuffleWalls (wallOrder.filter (fun w => w.removable)),
    sets := cellOrder.map (fun c => [c]) }

/-- `Vec::drain_filter(..).next()` as used by `Kruskal::join`: extract
the first element satisfying the predicate. -/
def drainFirst (p : α → Bool) : List α → Option (α × List α)
  | [] => none
  | a :: rest =>
    if p a then some (a, rest)
    else (drainFirst p rest).map (fun br => (br.1, a :: br.2))

/-- `Kruskal::join`.  On the second `MissingSet` error the already
drained `c1` set is dropped, as in the source.  The `c2` set is
traversed in its list order; the final state does not depend on that
order (walls are removed by value from a duplicate-free list). -/
def Kruskal.join (k : Kruskal) (c1 c2 : Coord) (m : Maze) :
    Kruskal × Except Err JoinResult :=
  match drainFirst (fun s => decide (c1 ∈ s)) k.sets with
  | none => (k, .error (.MissingSet c1))
  | some c1r =>
    if c2 ∈ c1r.1 then ({ k with sets := c1r.2 ++ [c1r.1] }, .ok .Nop)
    else
      match drainFirst (fun s => decide (c2 ∈ s)) c1r.2 with
      | none => ({ k with sets := c1r.2 }, .error (.MissingSet c2))
      | some c2r =>
        let fold := c2r.1.foldl
          (fun (acc : List Coord × List Wall) c =>
            let ws := (m.neighbours c).foldl
              (fun ws nd => if nd.1 ∈ acc.1 then ws.erase (m.wall c nd.2) else ws)
              acc.2
            (acc.1.insert c, ws))
          (c1r.1, k.walls)
        ({ walls := fold.2, sets := c2r.2 ++ [fold.1] }, .ok .Joined)

def Kruskal.is_done (k : Kruskal) : Bool :=
  k.walls.isEmpty || decide (k.sets.length ≤ 1)

/-- `Kruskal::tick` (takes no randomness: `_random` is unused in the
source). -/
def Kruskal.tick (k : Kruskal) (m : Maze) : Kruskal × Maze × Option Err :=
  let m1 : Maze := { m with highlight_bright := ∅ }
  if k.is_done then (k, m1, none)
  else
    match k.walls.getLast? with
    | none => (k, m1, none)
    | some wall =>
      let k1 : Kruskal := { k with walls := k.walls.dropLast }
      let dc := m1.divided_coords wall
      let m2 : Maze := { m1 with
        explored := insert dc.2 (insert dc.1 m1.explored),
        highlight_bright := insert dc.2 (insert dc.1 m1.highlight_bright) }
      let jr := k1.join dc.1 dc.2 m2
      match jr.2 with
      | .error e => (jr.1, m2, some e)
      | .ok .Joined => (jr.1, { m2 with walls := m2.walls.erase wall }, none)
      | .ok .Nop => (jr.1, m2, none)

/-- generator `Prim`; the `cells` hash set is modelled as a list. -/
structure Prim where
  cells : List Coord
  deriving DecidableEq, Repr

def Prim.new (m : Maze) : Prim := ⟨[m.start]⟩

/-- `Prim::random_cell`: `None` on an empty frontier, otherwise the
oracle's pick from the frontier (the `unwrap` of the source is guarded
by the emptiness check). -/
def Prim.random_cell (s : Prim) (o : Oracle) : Option Coord :=
  if s.cells.isEmpty then none else some (o.pickCell s.cells)

def Prim.is_done (s : Prim) : Bool := s.cells.isEmpty

def Prim.tick (s : Prim) (m : Maze) (o : Oracle) : Prim × Maze × Option Err :=
  let m1 : Maze := { m with highlight_bright := ∅ }
  match s.random_cell o with
  | none => (s, m1, none)
  | some cell =>
    if (cell = m1.start ∨ cell = m1.endC) ∧ cell ∈ m1.explored then (s, m1, none)
    else
      let m2 : Maze := { m1 with explored := insert cell m1.explored,
                                 highlight_medium := m1.highlight_medium.erase cell,
                                 highlight_bright := insert cell m1.highlight_bright }
      let s1 : Prim := { s with cells := s.cells.erase cell }
      let explored_neighbours :=
        (m2.neighbours cell).filter (fun nd => decide (nd.1 ∈ m2.explored))
      let unknown_neighbours :=
        (m2.neighbours cell).filter (fun nd => decide (nd.1 ∉ m2.explored))
      let m3 : Maze :=
        match listChoose o.chooseIdx explored_neighbours with
        | some nd => { m2 with walls := m2.walls.erase (m2.wall cell nd.2) }
        | none => m2
      let m4 : Maze := { m3 with highlight_medium :=
          (unknown_neighbours.foldl (fun a nd => insert nd.1 a) m3.highlight_medium) }
      let s2 : Prim := { s1 with cells :=
          (unknown_neighbours.foldl (fun l nd => l.insert nd.1) s1.cells) }
      (s2, m4, none)

inductive EllerMode where
  | Horizontal : EllerMode
  | Vertical : EllerMode
  deriving DecidableEq, Repr

/-- generator `Eller`; the two `HashMap` indexes are modelled as
functions into `Option`. -/
structure Eller where
  current : Coord
  last_row : Int
  mode : EllerMode
  coord_to_set : Coord → Option Nat
  set_to_coords : Nat → Option (List Coord)
  last_set : Nat

def Eller.new (m : Maze) : Eller :=
  let current : Coord := ⟨0, 0⟩
  { current := current,
    last_row := (m.maze_height : Int) - 1,
    mode := .Horizontal,
    coord_to_set := fun c => if c = current then some 0 else none,
    set_to_coords := fun k => if k = 0 then some [current] else none,
    last_set := 0 }

def Eller.same_set (s : Eller) (c1 c2 : Coord) : Bool :=
  match s.coord_to_set c1, s.coord_to_set c2 with
  | some i1, some i2 => decide (i1 = i2)
  | _, _ => false

/-- The `else` branch of `Eller::add` (`c` not present in
`coord_to_set`): record `c` with set id `set`, appending to (or
creating) the `set_to_coords` entry. -/
def Eller.addNew (s : Eller) (c : Coord) (set : Nat) : Eller :=
  { s with
    coord_to_set := fun c' => if c' = c then some set else s.coord_to_set c',
    set_to_coords := fun k =>
      if k = set then
        match s.set_to_coords set with
        | some l => some (l ++ [c])
        | none => some [c]
      else s.set_to_coords k }

/-- `Eller::add`.  The recursive call of the source lands in the `else`
branch (the key was just removed), so it is inlined as `addNew`.  The
`unwrap` on the `current_set` entry is modelled by `none` (a panic);
the second read of that entry, for the emptiness check, always
succeeds because `addNew` only touches the key `set ≠ current_set`. -/
def Eller.add (s : Eller) (c : Coord) (set : Nat) : Option Eller :=
  match s.coord_to_set c with
  | some current_set =>
    if current_set = set then some s
    else
      match s.set_to_coords current_set with
      | none => none
      | some l =>
        let l' := l.erase c
        let s1 : Eller := { s with
          coord_to_set := fun c' => if c' = c then none else s.coord_to_set c',
          set_to_coords := fun k => if k = current_set then some l' else s.set_to_coords k }
        let s2 := s1.addNew c set
        if l'.isEmpty then
          some { s2 with set_to_coords :=
            fun k => if k = current_set then none else s2.set_to_coords k }
        else some s2
  | none => some (s.addNew c set)

def Eller.new_set (s : Eller) (c : Coord) : Option Eller :=
  let next_set := s.last_set + 1
  (s.add c next_set).map (fun s' => { s' with last_set := next_set })

/-- `Eller::join`: `none` models the `unreachable!()` on two
coordinates of the same set and the panics of missing-key indexing. -/
def Eller.join (s : Eller) (c1 : Coord) (c2 : Coord) : Option Eller :=
  if s.same_set c1 c2 then none
  else
    match s.coord_to_set c1 with
    | none => none
    | some c1_set_idx =>
      match s.coord_to_set c2 with
      | none => s.add c2 c1_set_idx
      | some c2_set_idx =>
        match s.set_to_coords c2_set_idx with
        | none => none
        | some c2_set => c2_set.foldlM (fun st cell => st.add cell c1_set_idx) s

def Eller.connected_vertically (s : Eller) (set : Nat) (m : Maze) : Option Bool :=
  match s.set_to_coords set with
  | none => none
  | some l =>
    some ((l.filter (fun c => decide (c.y = s.current.y))).any
      (fun c => decide (m.south_wall c ∉ m.walls)))

def Eller.is_done (s : Eller) : Bool :=
  decide (s.mode = .Vertical) && decide (s.current.y = s.last_row)

/-- The forced/random southward-join step of the Vertical sub-phase
(the `if force_join || random.gen()` block of `Eller::tick`). -/
def Eller.vertStep (s : Eller) (m : Maze) (doJoin : Bool) : Option (Eller × Maze) :=
  if doJoin then
    match m.neighbour s.current .South with
    | some neighbour =>
      match s.join s.current neighbour with
      | none => none
      | some s1 =>
        some (s1, { m with walls := m.walls.erase (m.south_wall s.current),
                           explored := insert neighbour m.explored,
                           highlight_medium := insert neighbour m.highlight_medium })
    | none => some (s, m)
  else some (s, m)

/-- The Horizontal sub-phase of `Eller::tick` (after the highlight
bookkeeping), operating on the updated maze; `gen` is the
`random.gen()` draw. -/
def Eller.horizTick (s : Eller) (m : Maze) (gen : Bool) : Option (Eller × Maze) :=
  let current := s.current
  let last_row := decide (current.y = s.last_row)
  match m.neighbour current .East with
  | some neighbour =>
    if !(s.same_set current neighbour) && (last_row || gen) then
      match s.join current neighbour with
      | none => none
      | some s1 =>
        some ({ s1 with current := neighbour },
          { m with walls := m.walls.erase (m.east_wall current),
                   highlight_medium := insert neighbour m.highlight_medium })
    else
      if (s.coord_to_set neighbour).isNone then
        match s.new_set neighbour with
        | none => none
        | some s1 => some ({ s1 with current := neighbour }, m)
      else some ({ s with current := neighbour }, m)
  | none => some ({ s with mode := .Vertical }, m)

/-- The Vertical sub-phase of `Eller::tick` (after the highlight
bookkeeping), operating on the updated maze; `gen` is the
`random.gen()` draw. -/
def Eller.vertTick (s : Eller) (m : Maze) (gen : Bool) : Option (Eller × Maze) :=
  match s.coord_to_set s.current with
  | none => none
  | some current_set =>
    let lastInSetOpt : Option Bool :=
      match m.neighbour s.current .West with
      | none => some true
      | some w =>
        match s.coord_to_set w with
        | none => none
        | some wset => some (decide (¬ (wset = current_set)))
    match lastInSetOpt with
    | none => none
    | some last_in_set =>
      match s.connected_vertically current_set m with
      | none => none
      | some connected =>
        let force_join := last_in_set && !connected
        match s.vertStep m (force_join || gen) with
        | none => none
        | some sm =>
          match sm.2.neighbour sm.1.current .West with
          | some w => some ({ sm.1 with current := w }, sm.2)
          | none =>
            let s2 : Eller := { sm.1 with mode := .Horizontal }
            match sm.2.neighbour s2.current .South with
            | some neighbour =>
              if (s2.coord_to_set neighbour).isNone then
                match s2.new_set neighbour with
                | none => none
                | some s3 => some ({ s3 with current := neighbour }, sm.2)
              else some ({ s2 with current := neighbour }, sm.2)
            | none => some (s2, sm.2)

def Eller.tick (s : Eller) (m : Maze) (o : Oracle) : Option (Eller × Maze) :=
  let m1 : Maze := { m with highlight_bright := ∅, highlight_medium := ∅,
                            highlight_dark := ∅ }
  let m2 : Maze := { m1 with highlight_dark :=
      ((List.range m.maze_width).foldl
        (fun a (x : Nat) => insert (Coord.mk (x : Int) s.current.y) a)
        m1.highlight_dark) }
  let m3 : Maze := { m2 with highlight_bright := insert s.current m2.highlight_bright,
                             explored := insert s.current m2.explored }
  match s.mode with
  | .Horizontal => s.horizTick m3 o.genBool
  | .Vertical => s.vertTick m3 o.genBool

/-- Soundness of the `coord_to_set` index: every entry points at a
`set_to_coords` list that contains the coordinate. -/
def Eller.SyncA (s : Eller) : Prop :=
  ∀ c i, s.coord_to_set c = some i → ∃ l, s.set_to_coords i = some l ∧ c ∈ l

/-- Soundness of the `set_to_coords` index: every listed coordinate has
a `coord_to_set` entry. -/
def Eller.SyncB (s : Eller) : Prop :=
  ∀ i l, s.set_to_coords i = some l → ∀ c ∈ l, (s.coord_to_set c).isSome = true

/-- Every indexed coordinate is inside the grid. -/
def Eller.VDom (s : Eller) (W H : Nat) : Prop :=
  ∀ c, (s.coord_to_set c).isSome = true → c.valid_coord W H = true

/-- The whole row prefix up to (and including) `current` is indexed. -/
def Eller.RowPrefix (s : Eller) : Prop :=
  ∀ x' : Int, 0 ≤ x' → x' ≤ s.current.x →
    (s.coord_to_set ⟨x', s.current.y⟩).isSome = true

/-- Mode-dependent bound on which rows may be indexed: during the
Horizontal sub-phase nothing below the current row is indexed; during
the Vertical sub-phase the row below `current` is indexed only strictly
east of `current`. -/
def Eller.GBound (s : Eller) : Prop :=
  match s.mode with
  | .Horizontal => ∀ c, (s.coord_to_set c).isSome = true → c.y ≤ s.current.y
  | .Vertical => ∀ c, (s.coord_to_set c).isSome = true →
      c.y ≤ s.current.y + 1 ∧ (c.y = s.current.y + 1 → s.current.x < c.x)

/-- The inductive invariant of the Eller generator state. -/
def Eller.Inv (s : Eller) (W H : Nat) : Prop :=
  s.SyncA ∧ s.SyncB ∧ s.VDom W H ∧ s.RowPrefix ∧ s.GBound ∧ 0 ≤ s.current.x

/-- The Eller states reachable from `Eller::new` by ticking, on mazes
of a fixed configuration. -/
inductive EllerReach (cfg : Config) : Eller → Prop where
  | init (m : Maze) : m.config = cfg → EllerReach cfg (Eller.new m)
  | step (s : Eller) (m : Maze) (o : Oracle) (s' : Eller) (m' : Maze) :
      EllerReach cfg s → m.config = cfg → Eller.tick s m o = some (s', m') →
      EllerReach cfg s'

inductive HuntKillMode where
  | Hunt : HuntKillMode
  | Kill : HuntKillMode
  deriving DecidableEq, Repr

/-- generator `HuntKill` -/
structure HuntKill where
  current : Option Coord
  last_completed_column : Int
  last_completed_row : Int
  mode : HuntKillMode
  deriving DecidableEq, Repr

def HuntKill.new (_m : Maze) : HuntKill := ⟨some ⟨0, 0⟩, 0, 0, .Kill⟩

def HuntKill.available_neighbour (s : HuntKill) (m : Maze) (o : Oracle) :
    Option (Coord × Direction) :=
  match s.current with
  | none => none
  | some current =>
    (o.shuffle (m.neighbours current)).find? (fun nd => decide (nd.1 ∉ m.explored))

def HuntKill.current_row (s : HuntKill) (m : Maze) : List Coord :=
  match s.current with
  | none => []
  | some current =>
    (List.range m.maze_width).map (fun (x : Nat) => ⟨(x : Int), current.y⟩)

def HuntKill.visited_neighbour (s : HuntKill) (m : Maze) (o : Oracle) :
    Option (Coord × Direction) :=
  match s.current with
  | none => none
  | some current =>
    if current ∈ m.explored then none
    else (o.shuffle (m.neighbours current)).find? (fun nd => decide (nd.1 ∈ m.explored))

def HuntKill.tick_kill (s : HuntKill) (m : Maze) (o : Oracle) :
    HuntKill × Maze × Option Err :=
  match s.current with
  | none => (s, m, none)
  | some current =>
    let m1 : Maze := { m with highlight_bright := insert current m.highlight_bright,
                              highlight_medium := insert current m.highlight_medium,
                              explored := insert current m.explored }
    match s.available_neighbour m1 o with
    | some nd =>
      let lr := m1.link current nd.1
      match lr.2 with
      | some e => (s, lr.1, some e)
      | none => ({ s with current := some nd.1 }, lr.1, none)
    | none =>
      ({ s with mode := .Hunt,
                current := some ⟨s.last_completed_column, s.last_completed_row⟩ },
        m1, none)

def HuntKill.tick_hunt (s : HuntKill) (m : Maze) (o : Oracle) :
    HuntKill × Maze × Option Err :=
  let m1 : Maze := { m with highlight_medium := ∅ }
  match s.current with
  | none => (s, m1, none)
  | some current =>
    let m2 : Maze := { m1 with highlight_medium :=
        ((s.current_row m1).foldl (fun a c => insert c a) m1.highlight_medium) }
    let m3 : Maze := { m2 with highlight_bright := insert current m2.highlight_bright }
    match s.visited_neighbour m3 o with
    | some nd =>
      let m4 : Maze := { m3 with highlight_medium := ∅,
                                 highlight_bright := insert nd.1 m3.highlight_bright }
      let lr := m4.link current nd.1
      match lr.2 with
      | some e => (s, lr.1, some e)
      | none => ({ s with last_completed_column := current.x, mode := .Kill }, lr.1, none)
    | none =>
      match m3.neighbour current .East with
      | some neighbour => ({ s with current := some neighbour }, m3, none)
      | none =>
        if current.y < (m3.maze_height : Int) - 1 then
          let s1 : HuntKill :=
            if (s.current_row m3).all (fun c => decide (c ∈ m3.explored)) then
              { s with last_completed_row := current.y + 1 }
            else s
          ({ s1 with current := some ⟨0, current.y + 1⟩ }, m3, none)
        else ({ s with current := none }, m3, none)

def HuntKill.is_done (s : HuntKill) : Bool := s.current.isNone

def HuntKill.tick (s : HuntKill) (m : Maze) (o : Oracle) :
    HuntKill × Maze × Option Err :=
  let m1 : Maze := { m with highlight_bright := ∅ }
  match s.mode with
  | .Hunt => s.tick_hunt m1 o
  | .Kill => s.tick_kill m1 o

end Gen

/-- The closed tagged variant behind `Box<dyn Generator>`. -/
inductive GenState where
  | dfs : Gen.DFS → GenState
  | kruskal : Gen.Kruskal → GenState
  | prim : Gen.Prim → GenState
  | eller : Gen.Eller → GenState
  | huntkill : Gen.HuntKill → GenState

/-- `Generator::is_done` through the trait object. -/
def genIsDone : GenState → Bool
  | .dfs s => s.is_done
  | .kruskal s => s.is_done
  | .prim s => s.is_done
  | .eller s => s.is_done
  | .huntkill s => s.is_done

/-- `Generator::tick` through the trait object; `none` models a panic
(only the Eller generator contains potentially panicking
operations). -/
def genTick : GenState → Maze → Oracle → Option (GenState × Maze × Option Err)
  | .dfs s, m, o => let r := s.tick m o; some (.dfs r.1, r.2)
  | .kruskal s, m, _o => let r := s.tick m; some (.kruskal r.1, r.2)
  | .prim s, m, o => let r := s.tick m o; some (.prim r.1, r.2)
  | .eller s, m, o =>
    (match s.tick m o with
     | none => none
     | some r => some (.eller r.1, r.2, none))
  | .huntkill s, m, o => let r := s.tick m o; some (.huntkill r.1, r.2)


/-! ### Concrete instances used by the claims -/

/-- 1×3 grid (cell size 2), start `(0,0)`, end `(0,1)`: the end cell
sits between the start and the third cell. -/
def mazeC1 : Maze := Maze.new ⟨2, 1, 3⟩ ⟨0, 0⟩ ⟨0, 1⟩

/-- Three ticks of the DFS generator on `mazeC1`. -/
def runC1 : Gen.DFS × Maze := Gen.DFS.run 3 (Gen.DFS.new mazeC1, mazeC1) idOracle

/-- 1×2 grid (cell size 2), start `(0,0)`, end `(0,1)`. -/
def mazeC6 : Maze := Maze.new ⟨2, 1, 2⟩ ⟨0, 0⟩ ⟨0, 1⟩

/-- First tick of the DFS generator on `mazeC6`. -/
def tickC6 : Gen.DFS × Maze × Option Err :=
  Gen.DFS.tick (Gen.DFS.new mazeC6) mazeC6 idOracle

/-- The 1×2 maze after generation: the single interior wall removed. -/
def mazeSolved12 : Maze :=
  let m := Maze.new ⟨2, 1, 2⟩ ⟨0, 0⟩ ⟨0, 1⟩
  { m with walls := m.walls.erase ((Coord.mk 0 0).south_wall ⟨2, 1, 2⟩) }

/-- First tick of the BFS solver on the solved 1×2 maze (reaches the
goal, `is_done` becomes true). -/
def runC5 : SolState × Maze × Option Err :=
  solTick (SolverType.BFS.init mazeSolved12) mazeSolved12

/-- First tick of the DFS solver on the solved 1×2 maze. -/
def runC7 : Sol.DFS × Maze × Option Err :=
  Sol.DFS.tick (Sol.DFS.new mazeSolved12) mazeSolved12

/-- 3×1 grid (cell size 2) for the Kruskal determinism claim. -/
def mazeC8 : Maze := Maze.new ⟨2, 3, 1⟩ ⟨0, 0⟩ ⟨2, 0⟩

/-- One enumeration of the wall hash set of `mazeC8`. -/
def wallOrderC8 : List Wall :=
  ((⟨2, 3, 1⟩ : Config).allCoords.flatMap (fun c => c.wallsOf ⟨2, 3, 1⟩)).dedup

/-- Kruskal state built from `wallOrderC8` with the identity shuffle. -/
def kruOrd1 : Gen.Kruskal :=
  Gen.Kruskal.new mazeC8 wallOrderC8 id (⟨2, 3, 1⟩ : Config).allCoords

/-- Kruskal state built from the reversed enumeration with the same
(identity) shuffle. -/
def kruOrd2 : Gen.Kruskal :=
  Gen.Kruskal.new mazeC8 wallOrderC8.reverse id (⟨2, 3, 1⟩ : Config).allCoords

def GenInv : GenState → Prop
  | .kruskal k => ∀ w ∈ k.walls, w.border = false
  | _ => True


/-! ### Theorems -/

/-! ### Facts about the grid topology -/

theorem neighbour_east_eq {c n : Coord} {W H : Nat}
    (h : c.neighbour .East W H = some n) :
    n = ⟨c.x + 1, c.y⟩ ∧ c.x + 1 ≤ ((W - 1 : Nat) : Int) ∧ 0 ≤ c.y ∧
      c.y ≤ ((H - 1 : Nat) : Int) := by
  unfold Coord.neighbour at h
  dsimp only at h
  split at h
  · rename_i hv
    cases h
    unfold Coord.valid_coord at hv
    simp only [Bool.and_eq_true, decide_eq_true_eq] at hv
    exact ⟨rfl, hv.1.1.2, hv.1.2, hv.2⟩
  · cases h

theorem neighbour_south_eq {c n : Coord} {W H : Nat}
    (h : c.neighbour .South W H = some n) :
    n = ⟨c.x, c.y + 1⟩ ∧ c.y + 1 ≤ ((H - 1 : Nat) : Int) ∧ 0 ≤ c.x ∧
      c.x ≤ ((W - 1 : Nat) : Int) := by
  unfold Coord.neighbour at h
  dsimp only at h
  split at h
  · rename_i hv
    cases h
    unfold Coord.valid_coord at hv
    simp only [Bool.and_eq_true, decide_eq_true_eq] at hv
    exact ⟨rfl, hv.2, hv.1.1.1, hv.1.1.2⟩
  · cases h

/-- **C2**: For every configuration with positive grid dimensions and
every in-bounds coordinate `c`, the wall value computed for the shared
boundary is the same from either side: `c.east_wall = n.west_wall` for
the eastern neighbour `n`, and `c.south_wall = m.north_wall` for the
southern neighbour `m` — same center, orientation, border flag and
size. -/
theorem C2_shared_wall_identity (cfg : Config)
    (hW : 0 < cfg.width) (hH : 0 < cfg.height) :
    (∀ c n : Coord, c.valid_coord cfg.maze_width cfg.maze_height = true →
      c.neighbour .East cfg.maze_width cfg.maze_height = some n →
      c.east_wall cfg = n.west_wall cfg) ∧
    (∀ c n : Coord, c.valid_coord cfg.maze_width cfg.maze_height = true →
      c.neighbour .South cfg.maze_width cfg.maze_height = some n →
      c.south_wall cfg = n.north_wall cfg) := by
  constructor
  · intro c n hc hn
    obtain ⟨rfl, hxb, hy0, hyb⟩ := neighbour_east_eq hn
    unfold Coord.valid_coord at hc
    simp only [Bool.and_eq_true, decide_eq_true_eq] at hc
    obtain ⟨⟨⟨hx0, _⟩, _⟩, _⟩ := hc
    unfold Coord.east_wall Coord.west_wall Coord.into_point
    have hxne : ¬ (c.x = ((cfg.maze_width - 1 : Nat) : Int)) := by omega
    have hxne' : ¬ (c.x + 1 = (0 : Int)) := by omega
    simp only [Wall.mk.injEq, Point.mk.injEq]
    refine ⟨⟨?_, trivial⟩, trivial, ?_, trivial⟩
    · split
      · rename_i hpar
        have : cfg.cell_width / 2 + cfg.cell_width / 2 = cfg.cell_width := by omega
        push_cast
        nlinarith [this]
      · rename_i hpar
        have hpar' : cfg.cell_width % 2 = 1 := by omega
        have : cfg.cell_width / 2 + (cfg.cell_width + 1) / 2 = cfg.cell_width := by omega
        push_cast
        nlinarith [this]
    · simp only [hxne, hxne', decide_eq_false, decide_eq_true_eq]
  · intro c n hc hn
    obtain ⟨rfl, hyb, hx0, hxb⟩ := neighbour_south_eq hn
    unfold Coord.valid_coord at hc
    simp only [Bool.and_eq_true, decide_eq_true_eq] at hc
    obtain ⟨⟨⟨_, _⟩, hy0⟩, _⟩ := hc
    unfold Coord.south_wall Coord.north_wall Coord.into_point
    have hyne : ¬ (c.y = ((cfg.maze_height - 1 : Nat) : Int)) := by omega
    have hyne' : ¬ (c.y + 1 = (0 : Int)) := by omega
    simp only [Wall.mk.injEq, Point.mk.injEq]
    refine ⟨⟨trivial, ?_⟩, trivial, ?_, trivial⟩
    · split
      · rename_i hpar
        have : cfg.cell_height / 2 + cfg.cell_height / 2 = cfg.cell_height := by omega
        push_cast
        nlinarith [this]
      · rename_i hpar
        have hpar' : cfg.cell_height % 2 = 1 := by omega
        have : cfg.cell_height / 2 + (cfg.cell_height + 1) / 2 = cfg.cell_height := by omega
        push_cast
        nlinarith [this]
    · simp only [hyne, hyne', decide_eq_false, decide_eq_true_eq]

/-- Witness for C2 at a concrete configuration (3×3 pixels per cell, so
the odd-size offset path is exercised, on a 2×2 grid). -/
theorem C2_shared_wall_identity_witness :
    (Coord.mk 0 0).east_wall ⟨3, 2, 2⟩ = (Coord.mk 1 0).west_wall ⟨3, 2, 2⟩ ∧
    (Coord.mk 0 0).south_wall ⟨3, 2, 2⟩ = (Coord.mk 0 1).north_wall ⟨3, 2, 2⟩ :=
  ⟨(C2_shared_wall_identity ⟨3, 2, 2⟩ (by decide) (by decide)).1 ⟨0, 0⟩ ⟨1, 0⟩
      (by decide) (by decide),
   (C2_shared_wall_identity ⟨3, 2, 2⟩ (by decide) (by decide)).2 ⟨0, 0⟩ ⟨0, 1⟩
      (by decide) (by decide)⟩


/-! ### Solvers (`solver.rs`)

The `Rc<Node>` parent chains of the search nodes are modelled by
flattening the `previous` pointers into a list of ancestors (parent
first); `previous == None` corresponds to the empty list.  The recursive
`highlight_path_from_cell` of each solver then becomes `pathFold` on
that list. -/

/-! ### Membership in the freshly built wall set -/

theorem wall_mem_wallsOf (c : Coord) (cfg : Config) (d : Direction) :
    c.wall d cfg ∈ c.wallsOf cfg := by
  cases d <;> simp [Coord.wall, Coord.wallsOf]

theorem mem_allCoords {cfg : Config} {c : Coord}
    (hW : 0 < cfg.width) (hH : 0 < cfg.height)
    (h : c.valid_coord cfg.maze_width cfg.maze_height = true) :
    c ∈ cfg.allCoords := by
  unfold Coord.valid_coord Config.maze_width Config.maze_height at h
  simp only [Bool.and_eq_true, decide_eq_true_eq] at h
  obtain ⟨⟨⟨hx0, hxb⟩, hy0⟩, hyb⟩ := h
  have hy : c.y.toNat < cfg.height := by omega
  have hx : c.x.toNat < cfg.width := by omega
  unfold Config.allCoords Config.maze_width Config.maze_height
  apply List.mem_flatMap.mpr
  refine ⟨c.y.toNat, List.mem_range.mpr hy, ?_⟩
  apply List.mem_map.mpr
  refine ⟨c.x.toNat, List.mem_range.mpr hx, ?_⟩
  cases c with
  | mk x y =>
    dsimp only at hx0 hxb hy0 hyb
    simp only [Coord.mk.injEq]
    constructor <;> omega

theorem mem_foldl_insert {α : Type} [DecidableEq α] (l : List α) (init : Finset α)
    (x : α) :
    x ∈ l.foldl (fun a w => insert w a) init ↔ x ∈ init ∨ x ∈ l := by
  induction l generalizing init with
  | nil => simp
  | cons a as ih =>
    simp only [List.foldl_cons, ih, Finset.mem_insert, List.mem_cons]
    tauto

theorem mem_foldl_walls (cfg : Config) (l : List Coord) (init : Finset Wall)
    (w : Wall) :
    w ∈ l.foldl (fun acc c => (c.wallsOf cfg).foldl (fun a wl => insert wl a) acc) init ↔
      w ∈ init ∨ ∃ c ∈ l, w ∈ c.wallsOf cfg := by
  induction l generalizing init with
  | nil => simp
  | cons a as ih =>
    simp only [List.foldl_cons, ih, mem_foldl_insert, List.mem_cons]
    constructor
    · rintro (⟨h | h⟩ | ⟨c, hc, hw⟩)
      · exact Or.inl h
      · exact Or.inr ⟨a, Or.inl rfl, h⟩
      · exact Or.inr ⟨c, Or.inr hc, hw⟩
    · rintro (h | ⟨c, rfl | hc, hw⟩)
      · exact Or.inl (Or.inl h)
      · exact Or.inl (Or.inr hw)
      · exact Or.inr ⟨c, hc, hw⟩

theorem mem_initialWalls {cfg : Config} {c : Coord} {w : Wall}
    (hc : c ∈ cfg.allCoords) (hw : w ∈ c.wallsOf cfg) :
    w ∈ cfg.initialWalls := by
  unfold Config.initialWalls
  exact (mem_foldl_walls cfg cfg.allCoords ∅ w).mpr (Or.inr ⟨c, hc, hw⟩)

/-- In a maze whose wall set is the full initial wall set, no coordinate
has a connected neighbour. -/
theorem connected_neighbours_of_full (mz : Maze) (cfg : Config) (c : Coord)
    (hcfg : mz.config = cfg) (hW : 0 < cfg.width) (hH : 0 < cfg.height)
    (hwalls : mz.walls = cfg.initialWalls)
    (hc : c.valid_coord cfg.maze_width cfg.maze_height = true) :
    mz.connected_neighbours c = [] := by
  subst hcfg
  unfold Maze.connected_neighbours
  apply List.filter_eq_nil_iff.mpr
  intro nd _hnd
  simp only [decide_eq_true_eq, Decidable.not_not]
  rw [hwalls]
  exact mem_initialWalls (mem_allCoords hW hH hc) (wall_mem_wallsOf c mz.config nd.2)

/-- **C4**: on a maze whose walls are all standing (the full wall set of
`Maze::new`, no generation run) with `start != end`, the first `tick` of
every one of the five solvers returns `Err(ImpossibleMaze)`: the
frontier (stack or queue) is empty before the goal is reached. -/
theorem C4_full_walls_solver_impossible (t : SolverType) (m : Maze)
    (hW : 0 < m.config.width) (hH : 0 < m.config.height)
    (hwalls : m.walls = m.config.initialWalls)
    (hstart : m.start.valid_coord m.config.maze_width m.config.maze_height = true)
    (_hne : m.start ≠ m.endC) :
    (solTick (t.init m) m).2.2 = some .ImpossibleMaze := by
  have hconn : ∀ mz : Maze, mz.config = m.config →
      mz.walls = m.config.initialWalls → mz.connected_neighbours m.start = [] :=
    fun mz h1 h2 => connected_neighbours_of_full mz m.config m.start h1 hW hH h2 hstart
  cases t
  case DFS =>
    simp [SolverType.init, solTick, Sol.DFS.new, Sol.DFS.tick,
      Sol.DFS.available_neighbour, hconn, hwalls]
  case BFS =>
    simp [SolverType.init, solTick, Sol.BFS.new, Sol.BFS.tick,
      Sol.BFS.available_neighbours, hconn, hwalls]
  case Dijkstra =>
    simp [SolverType.init, solTick, Sol.Dijkstra.new, Sol.Dijkstra.tick,
      Sol.Dijkstra.available_neighbours, hconn, hwalls]
  case Greedy =>
    simp [SolverType.init, solTick, Sol.Greedy.new, Sol.Greedy.tick,
      Sol.Greedy.available_neighbours, hconn, hwalls]
  case AStar =>
    simp [SolverType.init, solTick, Sol.AStar.new, Sol.AStar.tick,
      Sol.AStar.available_neighbours, hconn, hwalls]

/-- Witness for C4: all five solvers fail with `ImpossibleMaze` on a
concrete fully-walled 2×2 maze. -/
theorem C4_full_walls_solver_impossible_witness :
    (solTick (SolverType.DFS.init mazeFullC4) mazeFullC4).2.2 =
        some .ImpossibleMaze ∧
    (solTick (SolverType.BFS.init mazeFullC4) mazeFullC4).2.2 =
        some .ImpossibleMaze ∧
    (solTick (SolverType.Dijkstra.init mazeFullC4) mazeFullC4).2.2 =
        some .ImpossibleMaze ∧
    (solTick (SolverType.Greedy.init mazeFullC4) mazeFullC4).2.2 =
        some .ImpossibleMaze ∧
    (solTick (SolverType.AStar.init mazeFullC4) mazeFullC4).2.2 =
        some .ImpossibleMaze :=
  ⟨C4_full_walls_solver_impossible .DFS mazeFullC4 (by decide) (by decide) rfl
      (by decide) (by decide),
   C4_full_walls_solver_impossible .BFS mazeFullC4 (by decide) (by decide) rfl
      (by decide) (by decide),
   C4_full_walls_solver_impossible .Dijkstra mazeFullC4 (by decide) (by decide) rfl
      (by decide) (by decide),
   C4_full_walls_solver_impossible .Greedy mazeFullC4 (by decide) (by decide) rfl
      (by decide) (by decide),
   C4_full_walls_solver_impossible .AStar mazeFullC4 (by decide) (by decide) rfl
      (by decide) (by decide)⟩


/-! ### Claim theorems on concrete runs -/

/-- **C1** (refuted by the code: `code_bug`): the recursive-backtracker
generator does not always produce a spanning tree.  On the 1×3 grid
with `start = (0,0)` and `end = (0,1)`, `DFS::available_neighbour`
returns `None` as soon as `current == maze.end`, so the walk backtracks
from `(0,1)` without ever reaching `(0,2)`: after 3 ticks `is_done()`
is true, exactly 1 wall (not `W*H - 1 = 2`) has been removed, and
`(0,2)` was never explored — the removed walls do not form a spanning
tree.  Every list handed to `random.shuffle` along this trace has at
most one element, so this outcome is seed-independent. -/
theorem C1_dfs_generator_not_spanning_tree :
    runC1.1.is_done = true ∧
    mazeC1.walls.card = runC1.2.walls.card + 1 ∧
    Coord.mk 0 2 ∉ runC1.2.explored := by decide

/-- **C5** (counterexample): ticking a solver whose `is_done()` is
already true is not a no-op.  On the solved 1×2 maze the first BFS tick
reaches the goal (`is_done` true, `Ok` returned); the next tick returns
`Err(ImpossibleMaze)` instead of `Ok`. -/
theorem C5_done_tick_not_noop_counterexample :
    runC5.2.2 = none ∧ solIsDone runC5.1 = true ∧
    (solTick runC5.1 runC5.2.1).2.2 = some Err.ImpossibleMaze := by decide

/-- **C6** (counterexample): in a DFS-generator tick that advances to an
unexplored neighbour, the neighbour is *not* marked explored during
that tick (the source marks the *current* cell explored; the neighbour
is only marked when it becomes current on the following tick).  First
tick on the 1×2 maze: the walk advances to `(0,1)` and removes the
connecting wall, yet `(0,1)` is absent from `maze.explored`. -/
theorem C6_neighbour_not_marked_explored_counterexample :
    tickC6.1.current = some ⟨0, 1⟩ ∧
    (Coord.mk 0 0).south_wall ⟨2, 1, 2⟩ ∉ tickC6.2.1.walls ∧
    Coord.mk 0 1 ∉ tickC6.2.1.explored := by decide

/-- **C7** (counterexample): the DFS solver does not rebuild
`highlight_medium` from parent links.  On the solved 1×2 maze its first
tick returns `Ok` with `current = (0,1) ≠ start`, yet the start cell —
the root, which lies on every path walked back from the current
position along parent links — is not in `highlight_medium` (DFS
maintains the set incrementally and never inserts the start). -/
theorem C7_dfs_medium_not_path_counterexample :
    runC7.2.2 = none ∧ runC7.1.current ≠ mazeSolved12.start ∧
    mazeSolved12.start ∉ runC7.2.1.highlight_medium := by decide

/-- **C8** (refuted by the code: `code_bug`): the seeded RNG is not the
only entropy source.  `Kruskal::new` collects `maze.walls` by iterating
a `HashSet` — an order that varies between runs — and shuffles that
list.  With the *same* shuffle (same seed) but two different
enumerations of the same wall set (both complete and duplicate-free),
the first tick removes different walls, so the tick-by-tick wall
removal sequence differs. -/
theorem C8_kruskal_depends_on_hash_order :
    wallOrderC8.toFinset = mazeC8.walls ∧
    wallOrderC8.reverse.toFinset = mazeC8.walls ∧
    wallOrderC8.Nodup ∧ wallOrderC8.reverse.Nodup ∧
    (kruOrd1.tick mazeC8).2.1.walls ≠ (kruOrd2.tick mazeC8).2.1.walls := by
  decide


/-! Frame lemmas: every tick leaves `start` and `endC` unchanged. -/

theorem link_start_end (m : Maze) (c1 c2 : Coord) :
    (m.link c1 c2).1.start = m.start ∧ (m.link c1 c2).1.endC = m.endC := by
  unfold Maze.link
  split
  · split <;> (simp only []; split <;> exact ⟨rfl, rfl⟩)
  · exact ⟨rfl, rfl⟩

theorem gen_dfs_start_end (s : Gen.DFS) (m : Maze) (o : Oracle) :
    (s.tick m o).2.1.start = m.start ∧ (s.tick m o).2.1.endC = m.endC := by
  unfold Gen.DFS.tick
  split
  · exact ⟨rfl, rfl⟩
  · dsimp only
    split
    · split
      · exact ⟨(link_start_end _ _ _).1, (link_start_end _ _ _).2⟩
      · exact ⟨(link_start_end _ _ _).1, (link_start_end _ _ _).2⟩
    · exact ⟨rfl, rfl⟩

theorem gen_kruskal_start_end (k : Gen.Kruskal) (m : Maze) :
    (k.tick m).2.1.start = m.start ∧ (k.tick m).2.1.endC = m.endC := by
  unfold Gen.Kruskal.tick
  split
  · exact ⟨rfl, rfl⟩
  · split
    · exact ⟨rfl, rfl⟩
    · simp only []
      split <;> exact ⟨rfl, rfl⟩

theorem gen_prim_start_end (s : Gen.Prim) (m : Maze) (o : Oracle) :
    (s.tick m o).2.1.start = m.start ∧ (s.tick m o).2.1.endC = m.endC := by
  unfold Gen.Prim.tick
  split
  · exact ⟨rfl, rfl⟩
  · simp only []
    split
    · exact ⟨rfl, rfl⟩
    · simp only []
      split <;> exact ⟨rfl, rfl⟩

theorem eller_vertStep_start_end (s : Gen.Eller) (m : Maze) (b : Bool)
    (r : Gen.Eller × Maze) (h : s.vertStep m b = some r) :
    r.2.start = m.start ∧ r.2.endC = m.endC := by
  unfold Gen.Eller.vertStep at h
  repeat'
    first
      | ((cases h) <;> exact ⟨rfl, rfl⟩)
      | split at h
      | simp only [] at h

theorem eller_horizTick_start_end (s : Gen.Eller) (m : Maze) (g : Bool)
    (r : Gen.Eller × Maze) (h : s.horizTick m g = some r) :
    r.2.start = m.start ∧ r.2.endC = m.endC := by
  unfold Gen.Eller.horizTick at h
  repeat'
    first
      | ((cases h) <;> exact ⟨rfl, rfl⟩)
      | split at h
      | simp only [] at h

theorem eller_vertTick_start_end (s : Gen.Eller) (m : Maze) (g : Bool)
    (r : Gen.Eller × Maze) (h : s.vertTick m g = some r) :
    r.2.start = m.start ∧ r.2.endC = m.endC := by
  unfold Gen.Eller.vertTick at h
  repeat'
    first
      | ((cases h) <;> exact ⟨rfl, rfl⟩)
      | split at h
      | simp only [] at h
  all_goals
    (cases h
     dsimp only
     exact ⟨(eller_vertStep_start_end _ _ _ _ (by assumption)).1,
            (eller_vertStep_start_end _ _ _ _ (by assumption)).2⟩)

theorem gen_eller_start_end (s : Gen.Eller) (m : Maze) (o : Oracle)
    (r : Gen.Eller × Maze) (h : s.tick m o = some r) :
    r.2.start = m.start ∧ r.2.endC = m.endC := by
  unfold Gen.Eller.tick at h
  split at h
  · simp only [] at h
    have hh := eller_horizTick_start_end _ _ _ _ h
    exact hh
  · simp only [] at h
    have hh := eller_vertTick_start_end _ _ _ _ h
    exact hh

theorem gen_huntkill_start_end (s : Gen.HuntKill) (m : Maze) (o : Oracle) :
    (s.tick m o).2.1.start = m.start ∧ (s.tick m o).2.1.endC = m.endC := by
  unfold Gen.HuntKill.tick Gen.HuntKill.tick_hunt Gen.HuntKill.tick_kill
  repeat'
    first
      | exact ⟨rfl, rfl⟩
      | exact ⟨(link_start_end _ _ _).1, (link_start_end _ _ _).2⟩
      | split
      | simp only []

theorem foldl_pair_maze_start_end {α β : Type} (f : β × Maze → α → β × Maze)
    (h : ∀ acc a, (f acc a).2.start = acc.2.start ∧ (f acc a).2.endC = acc.2.endC)
    (l : List α) (init : β × Maze) :
    (l.foldl f init).2.start = init.2.start ∧
      (l.foldl f init).2.endC = init.2.endC := by
  induction l generalizing init with
  | nil => exact ⟨rfl, rfl⟩
  | cons a as ih =>
    exact ⟨(ih (f init a)).1.trans (h init a).1,
           (ih (f init a)).2.trans (h init a).2⟩

theorem sol_dfs_start_end (s : Sol.DFS) (m : Maze) :
    (s.tick m).2.1.start = m.start ∧ (s.tick m).2.1.endC = m.endC := by
  unfold Sol.DFS.tick
  repeat' first | exact ⟨rfl, rfl⟩ | split | simp only []

theorem sol_bfs_start_end (s : Sol.BFS) (m : Maze) :
    (s.tick m).2.1.start = m.start ∧ (s.tick m).2.1.endC = m.endC := by
  unfold Sol.BFS.tick Sol.BFS.highlight_path
  repeat' first | exact ⟨rfl, rfl⟩ | split | simp only []

theorem sol_dijkstra_start_end (s : Sol.Dijkstra) (m : Maze) :
    (s.tick m).2.1.start = m.start ∧ (s.tick m).2.1.endC = m.endC := by
  unfold Sol.Dijkstra.tick Sol.Dijkstra.highlight_path
  repeat'
    first
      | exact ⟨rfl, rfl⟩
      | (refine ⟨(foldl_pair_maze_start_end _ ?_ _ _).1,
                 (foldl_pair_maze_start_end _ ?_ _ _).2⟩ <;>
           exact fun acc a => ⟨rfl, rfl⟩)
      | split
      | simp only []

theorem sol_greedy_start_end (s : Sol.Greedy) (m : Maze) :
    (s.tick m).2.1.start = m.start ∧ (s.tick m).2.1.endC = m.endC := by
  unfold Sol.Greedy.tick Sol.Greedy.highlight_path
  repeat'
    first
      | exact ⟨rfl, rfl⟩
      | (refine ⟨(foldl_pair_maze_start_end _ ?_ _ _).1,
                 (foldl_pair_maze_start_end _ ?_ _ _).2⟩ <;>
           exact fun acc a => ⟨rfl, rfl⟩)
      | split
      | simp only []

theorem sol_astar_start_end (s : Sol.AStar) (m : Maze) :
    (s.tick m).2.1.start = m.start ∧ (s.tick m).2.1.endC = m.endC := by
  unfold Sol.AStar.tick Sol.AStar.highlight_path
  repeat'
    first
      | exact ⟨rfl, rfl⟩
      | (refine ⟨(foldl_pair_maze_start_end _ ?_ _ _).1,
                 (foldl_pair_maze_start_end _ ?_ _ _).2⟩ <;>
           exact fun acc a => ⟨rfl, rfl⟩)
      | split
      | simp only []

/-! C9 assembly -/

/-- **C9**: every tick of every generator and every solver leaves
`maze.start` and `maze.end` unchanged, whether it returns `Ok` or
`Err`. -/
theorem C9_tick_preserves_start_end :
    (∀ (g : GenState) (m : Maze) (o : Oracle) (r : GenState × Maze × Option Err),
      genTick g m o = some r → r.2.1.start = m.start ∧ r.2.1.endC = m.endC) ∧
    (∀ (s : SolState) (m : Maze),
      (solTick s m).2.1.start = m.start ∧ (solTick s m).2.1.endC = m.endC) := by
  constructor
  · intro g m o r h
    cases g <;> simp only [genTick] at h
    case dfs s => cases h; exact gen_dfs_start_end s m o
    case kruskal s => cases h; exact gen_kruskal_start_end s m
    case prim s => cases h; exact gen_prim_start_end s m o
    case huntkill s => cases h; exact gen_huntkill_start_end s m o
    case eller s =>
      split at h
      · cases h
      · rename_i r' heq
        cases h
        exact gen_eller_start_end _ _ _ _ heq
  · intro s m
    cases s
    case dfs s => exact sol_dfs_start_end s m
    case bfs s => exact sol_bfs_start_end s m
    case dijkstra s => exact sol_dijkstra_start_end s m
    case greedy s => exact sol_greedy_start_end s m
    case astar s => exact sol_astar_start_end s m

/-! C3: no border wall is ever removed -/

theorem ne_of_border_removable {w w' : Wall} (hb : w.border = true)
    (hr : w'.removable = true) : w ≠ w' := by
  intro he
  subst he
  unfold Wall.removable at hr
  rw [hb] at hr
  simp at hr

theorem mem_walls_link {m : Maze} {c1 c2 : Coord} {w : Wall}
    (hw : w ∈ m.walls) (hb : w.border = true) : w ∈ (m.link c1 c2).1.walls := by
  unfold Maze.link
  repeat'
    first
      | exact hw
      | (rename_i hrem
         exact Finset.mem_erase.mpr ⟨ne_of_border_removable hb hrem, hw⟩)
      | split
      | simp only []

theorem neighbours_sound {c : Coord} {W H : Nat} {nd : Coord × Direction}
    (h : nd ∈ c.neighbours W H) : c.neighbour nd.2 W H = some nd.1 := by
  unfold Coord.neighbours at h
  simp only [List.mem_map, List.mem_filter, List.mem_cons, List.not_mem_nil,
    or_false] at h
  obtain ⟨cd, ⟨hmem, hsome⟩, heq⟩ := h
  obtain ⟨v, hv⟩ := Option.isSome_iff_exists.mp hsome
  rcases hmem with h1 | h1 | h1 | h1 <;> subst h1 <;> subst heq <;> simp_all

theorem wall_border_false_of_neighbours {m : Maze} {c : Coord}
    {nd : Coord × Direction} (h : nd ∈ m.neighbours c) :
    (m.wall c nd.2).border = false := by
  unfold Maze.neighbours at h
  have hs := neighbours_sound h
  unfold Maze.wall Coord.wall
  unfold Coord.neighbour at hs
  rcases nd with ⟨n, d⟩
  cases d <;>
    (dsimp only at hs ⊢
     split at hs
     case _ hv =>
       unfold Coord.valid_coord at hv
       simp only [Bool.and_eq_true, decide_eq_true_eq] at hv
       first
         | (unfold Coord.north_wall
            simp only [decide_eq_false_iff_not]
            omega)
         | (unfold Coord.east_wall
            simp only [decide_eq_false_iff_not]
            omega)
         | (unfold Coord.south_wall
            simp only [decide_eq_false_iff_not]
            omega)
         | (unfold Coord.west_wall
            simp only [decide_eq_false_iff_not]
            omega)
     case _ => cases hs)

theorem east_wall_border_false {m : Maze} {c n : Coord}
    (h : m.neighbour c .East = some n) : (m.east_wall c).border = false := by
  unfold Maze.neighbour at h
  obtain ⟨-, hxb, -, -⟩ := neighbour_east_eq h
  unfold Maze.east_wall Coord.east_wall
  simp only [decide_eq_false_iff_not]
  omega

theorem south_wall_border_false {m : Maze} {c n : Coord}
    (h : m.neighbour c .South = some n) : (m.south_wall c).border = false := by
  unfold Maze.neighbour at h
  obtain ⟨-, hyb, -, -⟩ := neighbour_south_eq h
  unfold Maze.south_wall Coord.south_wall
  simp only [decide_eq_false_iff_not]
  omega

theorem mem_erase_of_border_false {s : Finset Wall} {w w' : Wall}
    (hw : w ∈ s) (hb : w.border = true) (hb' : w'.border = false) :
    w ∈ s.erase w' :=
  Finset.mem_erase.mpr ⟨fun he => (by subst he; rw [hb] at hb'; cases hb'), hw⟩

theorem gen_dfs_border (s : Gen.DFS) (m : Maze) (o : Oracle) {w : Wall}
    (hw : w ∈ m.walls) (hb : w.border = true) : w ∈ (s.tick m o).2.1.walls := by
  unfold Gen.DFS.tick
  repeat'
    first
      | exact hw
      | exact mem_walls_link hw hb
      | split
      | simp only []

set_option maxHeartbeats 1600000 in
theorem gen_huntkill_border (s : Gen.HuntKill) (m : Maze) (o : Oracle) {w : Wall}
    (hw : w ∈ m.walls) (hb : w.border = true) : w ∈ (s.tick m o).2.1.walls := by
  unfold Gen.HuntKill.tick Gen.HuntKill.tick_hunt Gen.HuntKill.tick_kill
  repeat'
    first
      | exact hw
      | exact mem_walls_link hw hb
      | split
      | simp only []

theorem listChoose_mem {l : List α} {i : Nat} {a : α}
    (h : listChoose i l = some a) : a ∈ l := by
  unfold listChoose at h
  exact List.getElem?_mem h

theorem gen_prim_border (s : Gen.Prim) (m : Maze) (o : Oracle) {w : Wall}
    (hw : w ∈ m.walls) (hb : w.border = true) : w ∈ (s.tick m o).2.1.walls := by
  unfold Gen.Prim.tick
  repeat'
    first
      | exact hw
      | (rename_i nd hnd
         refine mem_erase_of_border_false hw hb
           (wall_border_false_of_neighbours
             (List.mem_of_mem_filter (listChoose_mem hnd))))
      | split
      | simp only []

theorem eller_vertStep_border (s : Gen.Eller) (m : Maze) (b : Bool)
    (r : Gen.Eller × Maze) (h : s.vertStep m b = some r) {w : Wall}
    (hw : w ∈ m.walls) (hb : w.border = true) : w ∈ r.2.walls := by
  unfold Gen.Eller.vertStep at h
  repeat'
    first
      | ((cases h) <;> exact hw)
      | ((cases h) <;>
          (dsimp only
           exact mem_erase_of_border_false hw hb
             (south_wall_border_false (by assumption))))
      | split at h
      | simp only [] at h

theorem eller_vertTick_border (s : Gen.Eller) (m : Maze) (g : Bool)
    (r : Gen.Eller × Maze) (h : s.vertTick m g = some r) {w : Wall}
    (hw : w ∈ m.walls) (hb : w.border = true) : w ∈ r.2.walls := by
  unfold Gen.Eller.vertTick at h
  repeat'
    first
      | ((cases h) <;> exact hw)
      | split at h
      | simp only [] at h
  all_goals
    (cases h
     dsimp only
     exact eller_vertStep_border _ _ _ _ (by assumption) hw hb)

theorem eller_horizTick_border (s : Gen.Eller) (m : Maze) (g : Bool)
    (r : Gen.Eller × Maze) (h : s.horizTick m g = some r) {w : Wall}
    (hw : w ∈ m.walls) (hb : w.border = true) : w ∈ r.2.walls := by
  unfold Gen.Eller.horizTick at h
  repeat'
    first
      | ((cases h) <;> exact hw)
      | ((cases h) <;>
          (dsimp only
           exact mem_erase_of_border_false hw hb
             (east_wall_border_false (by assumption))))
      | split at h
      | simp only [] at h

theorem gen_eller_border (s : Gen.Eller) (m : Maze) (o : Oracle)
    (r : Gen.Eller × Maze) (h : s.tick m o = some r) {w : Wall}
    (hw : w ∈ m.walls) (hb : w.border = true) : w ∈ r.2.walls := by
  unfold Gen.Eller.tick at h
  split at h
  · simp only [] at h
    exact eller_horizTick_border _ _ _ _ h hw hb
  · simp only [] at h
    exact eller_vertTick_border _ _ _ _ h hw hb

theorem gen_kruskal_border (k : Gen.Kruskal) (m : Maze)
    (hinv : ∀ w' ∈ k.walls, w'.border = false) {w : Wall}
    (hw : w ∈ m.walls) (hb : w.border = true) : w ∈ (k.tick m).2.1.walls := by
  unfold Gen.Kruskal.tick
  split
  · exact hw
  · split
    · exact hw
    · rename_i wall heq
      simp only []
      split
      · exact hw
      · exact mem_erase_of_border_false hw hb
          (hinv wall (List.mem_of_mem_getLast? heq))
      · exact hw

theorem mem_foldl_pair_walls_shrink {γ α : Type} (f : γ × List Wall → α → γ × List Wall)
    (hf : ∀ acc a w, w ∈ (f acc a).2 → w ∈ acc.2) (l : List α)
    (init : γ × List Wall) : ∀ w ∈ (l.foldl f init).2, w ∈ init.2 := by
  induction l generalizing init with
  | nil => intro w hw; exact hw
  | cons a as ih => intro w hw; exact hf init a w (ih (f init a) w hw)

theorem mem_foldl_erase_walls {α : Type} (g : List Wall → α → List Wall)
    (hg : ∀ ws a w, w ∈ g ws a → w ∈ ws) (l : List α) (ws : List Wall) :
    ∀ w ∈ l.foldl g ws, w ∈ ws := by
  induction l generalizing ws with
  | nil => intro w hw; exact hw
  | cons a as ih => intro w hw; exact hg ws a w (ih (g ws a) w hw)

theorem kruskal_join_walls_subset (k : Gen.Kruskal) (c1 c2 : Coord) (m : Maze) :
    ∀ w ∈ (k.join c1 c2 m).1.walls, w ∈ k.walls := by
  unfold Gen.Kruskal.join
  split
  · intro w hw; exact hw
  · split
    · intro w hw; exact hw
    · split
      · intro w hw; exact hw
      · simp only []
        intro w hw
        refine mem_foldl_pair_walls_shrink _ ?_ _ _ w hw
        intro acc a w' hw'
        refine mem_foldl_erase_walls _ ?_ _ _ w' hw'
        intro ws nd w'' hw''
        split at hw''
        · exact List.mem_of_mem_erase hw''
        · exact hw''

theorem kruskal_new_walls_removable (m : Maze) (wallOrder : List Wall)
    (shuffleWalls : List Wall → List Wall) (cellOrder : List Coord)
    (hperm : ∀ l, (shuffleWalls l).Perm l) :
    ∀ w ∈ (Gen.Kruskal.new m wallOrder shuffleWalls cellOrder).walls,
      w.border = false := by
  intro w hwk
  unfold Gen.Kruskal.new at hwk
  have h2 := (hperm _).mem_iff.mp hwk
  have h3 := (List.mem_filter.mp h2).2
  unfold Wall.removable at h3
  simpa using h3

theorem kruskal_tick_preserves_removable (k : Gen.Kruskal) (m : Maze)
    (hinv : ∀ w ∈ k.walls, w.border = false) :
    ∀ w ∈ (k.tick m).1.walls, w.border = false := by
  unfold Gen.Kruskal.tick
  split
  · exact hinv
  · split
    · exact hinv
    · simp only []
      split <;>
        (intro w hwk
         exact hinv w (List.dropLast_subset _ (kruskal_join_walls_subset _ _ _ _ w hwk)))

theorem genTick_preserves_GenInv (g : GenState) (m : Maze) (o : Oracle)
    (hg : GenInv g) (r : GenState × Maze × Option Err)
    (h : genTick g m o = some r) : GenInv r.1 := by
  cases g <;> simp only [genTick] at h
  case dfs s => cases h; trivial
  case kruskal s => cases h; exact kruskal_tick_preserves_removable s m hg
  case prim s => cases h; trivial
  case huntkill s => cases h; trivial
  case eller s =>
    split at h
    · cases h
    · cases h; trivial

/-- **C3**: no tick of any of the five generators ever removes a
border wall from `maze.walls`: every wall with `border = true` that is
in the wall set before a successful `genTick` is still in it
afterwards.  For Kruskal the generator-state invariant `GenInv` (all
walls in the internal work list are removable), established by
`Kruskal::new` and preserved by every tick, is part of the statement. -/
theorem C3_no_border_wall_removed (g : GenState) (m : Maze) (o : Oracle)
    (hg : GenInv g) (r : GenState × Maze × Option Err)
    (h : genTick g m o = some r) (w : Wall) (hw : w ∈ m.walls)
    (hb : w.border = true) : w ∈ r.2.1.walls := by
  cases g <;> simp only [genTick] at h
  case dfs s => cases h; exact gen_dfs_border s m o hw hb
  case kruskal s => cases h; exact gen_kruskal_border s m hg hw hb
  case prim s => cases h; exact gen_prim_border s m o hw hb
  case huntkill s => cases h; exact gen_huntkill_border s m o hw hb
  case eller s =>
    split at h
    · cases h
    · rename_i r' heq
      cases h
      exact gen_eller_border _ _ _ _ heq hw hb

theorem C3_no_border_wall_removed_witness :
    (Coord.mk 0 0).north_wall ⟨2, 1, 2⟩ ∈
      ((genTick (GenState.dfs (Gen.DFS.new mazeC6)) mazeC6 idOracle).getD
        (GenState.dfs (Gen.DFS.new mazeC6), mazeC6, none)).2.1.walls :=
  C3_no_border_wall_removed (GenState.dfs (Gen.DFS.new mazeC6)) mazeC6 idOracle
    trivial _ (by rfl) _ (by decide) (by decide)

theorem C9_tick_preserves_start_end_witness :
    ((((genTick (GenState.dfs (Gen.DFS.new mazeC6)) mazeC6 idOracle).getD
        (GenState.dfs (Gen.DFS.new mazeC6), mazeC6, none)).2.1.start = mazeC6.start) ∧
      (((genTick (GenState.dfs (Gen.DFS.new mazeC6)) mazeC6 idOracle).getD
        (GenState.dfs (Gen.DFS.new mazeC6), mazeC6, none)).2.1.endC = mazeC6.endC)) ∧
    ((solTick (SolverType.BFS.init mazeSolved12) mazeSolved12).2.1.start =
        mazeSolved12.start ∧
      (solTick (SolverType.BFS.init mazeSolved12) mazeSolved12).2.1.endC =
        mazeSolved12.endC) :=
  ⟨C9_tick_preserves_start_end.1 (GenState.dfs (Gen.DFS.new mazeC6)) mazeC6 idOracle
      _ (by rfl),
   C9_tick_preserves_start_end.2 (SolverType.BFS.init mazeSolved12) mazeSolved12⟩

theorem pathFold_eq (l : List Coord) (acc : Finset Coord) :
    pathFold l acc = l.toFinset ∪ acc := by
  induction l generalizing acc with
  | nil => simp [pathFold]
  | cons c rest ih =>
    simp [pathFold, ih, Finset.union_insert, Finset.insert_union]

theorem bfs_tick_medium_path (s : Sol.BFS) (m : Maze) (h : (s.tick m).2.2 = none) :
    (s.tick m).2.1.highlight_medium =
      ((s.tick m).1.current.coord :: (s.tick m).1.current.previous).toFinset := by
  unfold Sol.BFS.tick at h ⊢
  simp only [] at h ⊢
  split at h
  · cases h
  · rename_i n rest heq
    simp only [heq]
    simp [Sol.BFS.highlight_path, pathFold_eq]

theorem dijkstra_tick_medium_path (s : Sol.Dijkstra) (m : Maze)
    (h : (s.tick m).2.2 = none) :
    (s.tick m).2.1.highlight_medium =
      ((s.tick m).1.current.coord ::
        (s.tick m).1.current.previous.map Prod.fst).toFinset := by
  unfold Sol.Dijkstra.tick at h ⊢
  simp only [] at h ⊢
  split at h
  · cases h
  · rename_i n rest heq
    simp only [heq]
    simp [Sol.Dijkstra.highlight_path, pathFold_eq]

theorem greedy_tick_medium_path (s : Sol.Greedy) (m : Maze)
    (h : (s.tick m).2.2 = none) :
    (s.tick m).2.1.highlight_medium =
      ((s.tick m).1.current.coord ::
        (s.tick m).1.current.previous.map Prod.fst).toFinset := by
  unfold Sol.Greedy.tick at h ⊢
  simp only [] at h ⊢
  split at h
  · cases h
  · rename_i n rest heq
    simp only [heq]
    simp [Sol.Greedy.highlight_path, pathFold_eq]

theorem astar_tick_medium_path (s : Sol.AStar) (m : Maze)
    (h : (s.tick m).2.2 = none) :
    (s.tick m).2.1.highlight_medium =
      ((s.tick m).1.current.coord ::
        (s.tick m).1.current.previous.map Prod.fst).toFinset := by
  unfold Sol.AStar.tick at h ⊢
  simp only [] at h ⊢
  split at h
  · cases h
  · rename_i n rest heq
    simp only [heq]
    simp [Sol.AStar.highlight_path, pathFold_eq]

/-! C5 amended: done-ticks of the non-Eller generators -/

theorem dfs_done_tick (s : Gen.DFS) (m : Maze) (o : Oracle)
    (h : s.is_done = true) :
    s.tick m o = (s, { m with highlight_bright := ∅ }, none) := by
  unfold Gen.DFS.is_done at h
  rw [Option.isNone_iff_eq_none] at h
  simp only [Gen.DFS.tick, h]

theorem kruskal_done_tick (k : Gen.Kruskal) (m : Maze) (h : k.is_done = true) :
    k.tick m = (k, { m with highlight_bright := ∅ }, none) := by
  simp only [Gen.Kruskal.tick, h]
  simp

theorem prim_done_tick (s : Gen.Prim) (m : Maze) (o : Oracle)
    (h : s.is_done = true) :
    s.tick m o = (s, { m with highlight_bright := ∅ }, none) := by
  unfold Gen.Prim.is_done at h
  simp only [Gen.Prim.tick, Gen.Prim.random_cell, h]
  simp

theorem huntkill_done_tick (s : Gen.HuntKill) (m : Maze) (o : Oracle)
    (h : s.is_done = true) :
    s.tick m o = (s, { m with highlight_bright := ∅, highlight_medium := (if s.mode = .Hunt then ∅ else m.highlight_medium) }, none) := by
  unfold Gen.HuntKill.is_done at h
  rw [Option.isNone_iff_eq_none] at h
  rcases hm : s.mode with _ | _ <;>
    simp only [Gen.HuntKill.tick, Gen.HuntKill.tick_hunt, Gen.HuntKill.tick_kill,
      hm, h] <;> simp

/-! C6 infrastructure -/

theorem neighbour_candidate {c n : Coord} {d : Direction} {W H : Nat}
    (h : c.neighbour d W H = some n) :
    n = (match d with
         | .North => Coord.mk c.x (c.y - 1)
         | .East => Coord.mk (c.x + 1) c.y
         | .South => Coord.mk c.x (c.y + 1)
         | .West => Coord.mk (c.x - 1) c.y) := by
  cases d <;>
    (unfold Coord.neighbour at h
     simp only [] at h
     split at h
     · simp only [Option.some.injEq] at h
       exact h.symm
     · simp at h)

theorem neighbours_coord_inj {c : Coord} {W H : Nat} {p q : Coord × Direction}
    (hp : p ∈ c.neighbours W H) (hq : q ∈ c.neighbours W H)
    (h1 : p.1 = q.1) : p = q := by
  have hp' := neighbours_sound hp
  have hq' := neighbours_sound hq
  have hpe := neighbour_candidate hp'
  have hqe := neighbour_candidate hq'
  rcases p with ⟨pc, pd⟩
  rcases q with ⟨qc, qd⟩
  simp only at h1 hpe hqe
  subst h1
  cases pd <;> cases qd <;> simp only [] at hpe hqe <;>
    first
      | rfl
      | (exfalso
         rw [hpe] at hqe
         rw [Coord.mk.injEq] at hqe
         omega)

theorem neighbours_find_coord {c : Coord} {W H : Nat} {nd : Coord × Direction}
    (h : nd ∈ c.neighbours W H) :
    (c.neighbours W H).find? (fun p => decide (p.1 = nd.1)) = some nd := by
  have hsome : ((c.neighbours W H).find? (fun p => decide (p.1 = nd.1))).isSome := by
    rw [List.find?_isSome]
    exact ⟨nd, h, by simp⟩
  obtain ⟨q, hq⟩ := Option.isSome_iff_exists.mp hsome
  have hqmem := List.mem_of_find?_eq_some hq
  have hqp := List.find?_some hq
  simp only [decide_eq_true_eq] at hqp
  rw [hq, neighbours_coord_inj hqmem h hqp]

theorem link_of_neighbours {m : Maze} {c : Coord} {nd : Coord × Direction}
    (h : nd ∈ m.neighbours c) :
    m.link c nd.1 = ({ m with walls := m.walls.erase (m.wall c nd.2) }, none) := by
  have hb := wall_border_false_of_neighbours h
  unfold Maze.neighbours at h
  unfold Maze.link
  rw [show (m.neighbours c).find? (fun p => decide (p.1 = nd.1)) = some nd from
    neighbours_find_coord h]
  rcases nd with ⟨n, d⟩
  cases d <;>
    simp_all [Maze.wall, Coord.wall, Maze.north_wall, Maze.east_wall,
      Maze.south_wall, Maze.west_wall, Wall.removable]

/-- **C6** (amended): a tick of the recursive-backtracker generator
with `current = Some c` marks `c` (not the neighbour) explored,
highlighted bright and medium, and then: if `c` is not the end cell and
the freshly shuffled neighbour list contains an unexplored neighbour,
the first such `(n, d)` has the wall from `c` in direction `d` removed,
`c` is pushed on the stack and `current` becomes `n`; otherwise
(including when `c` is the end cell) `c` is un-marked from
`highlight_medium` and the stack is popped into `current`.  The
original claim (the neighbour is marked explored; no end-cell
exception) is refuted by
`C6_neighbour_not_marked_explored_counterexample`. -/
theorem C6_dfs_generator_tick_behaviour (s : Gen.DFS) (m : Maze) (o : Oracle) (c : Coord)
    (hc : s.current = some c)
    (hsh : (o.shuffle (m.neighbours c)).Perm (m.neighbours c)) :
    match (if m.endC = c then none
           else (o.shuffle (m.neighbours c)).find?
             (fun nd => decide (nd.1 ∉ insert c m.explored))) with
    | some nd =>
      s.tick m o =
        (⟨some nd.1, c :: s.stack⟩,
         { m with
             walls := m.walls.erase (m.wall c nd.2),
             explored := insert c m.explored,
             highlight_bright := insert c ∅,
             highlight_medium := insert c m.highlight_medium },
         none)
    | none =>
      s.tick m o =
        (⟨s.stack.head?, s.stack.tail⟩,
         { m with
             explored := insert c m.explored,
             highlight_bright := insert c ∅,
             highlight_medium := (insert c m.highlight_medium).erase c },
         none) := by
  split
  case _ nd heq =>
    by_cases hend : m.endC = c
    · rw [if_pos hend] at heq
      simp at heq
    · rw [if_neg hend] at heq
      have hmem : nd ∈ m.neighbours c :=
        hsh.mem_iff.mp (List.mem_of_find?_eq_some heq)
      have hA : s.available_neighbour
          ({ m with highlight_bright := insert c ∅,
                    highlight_medium := insert c m.highlight_medium,
                    explored := insert c m.explored } : Maze) o = some nd := by
        unfold Gen.DFS.available_neighbour
        rw [hc]
        show (if m.endC = c then none
              else (o.shuffle (m.neighbours c)).find?
                (fun nd => decide (nd.1 ∉ insert c m.explored))) = some nd
        rw [if_neg hend]
        exact heq
      have hmem2 : nd ∈ Maze.neighbours { m with highlight_bright := insert c ∅, highlight_medium := insert c m.highlight_medium, explored := insert c m.explored } c := hmem
      unfold Gen.DFS.tick
      simp only [hc]
      rw [hA]
      simp only []
      rw [link_of_neighbours hmem2]
      rfl
  case _ heq =>
    have hA : s.available_neighbour
        ({ m with highlight_bright := insert c ∅,
                  highlight_medium := insert c m.highlight_medium,
                  explored := insert c m.explored } : Maze) o = none := by
      unfold Gen.DFS.available_neighbour
      rw [hc]
      show (if m.endC = c then none
            else (o.shuffle (m.neighbours c)).find?
              (fun nd => decide (nd.1 ∉ insert c m.explored))) = none
      exact heq
    unfold Gen.DFS.tick
    simp only [hc]
    rw [hA]

theorem C6_dfs_generator_tick_behaviour_witness :
    Gen.DFS.tick (Gen.DFS.new mazeC6) mazeC6 idOracle =
      (⟨some ⟨0, 1⟩, [⟨0, 0⟩]⟩,
       { mazeC6 with
           walls := mazeC6.walls.erase (mazeC6.wall ⟨0, 0⟩ .South),
           explored := insert ⟨0, 0⟩ mazeC6.explored,
           highlight_bright := insert ⟨0, 0⟩ ∅,
           highlight_medium := insert ⟨0, 0⟩ mazeC6.highlight_medium },
       none) :=
  C6_dfs_generator_tick_behaviour (Gen.DFS.new mazeC6) mazeC6 idOracle ⟨0, 0⟩ rfl (List.Perm.refl _)

/-- **C5** (amended): for the DFS, Kruskal, Prim and Hunt-and-Kill
generators, `tick` in a state with `is_done() == true` returns `Ok`,
leaves the internal state unchanged and changes the maze only by
clearing `highlight_bright` (Hunt-and-Kill additionally clears
`highlight_medium` when it is in Hunt mode).  The original claim (a
strict no-op for every generator and solver) is refuted by
`C5_done_tick_not_noop_counterexample`. -/
theorem C5_done_tick_clears_bright_only :
    (∀ (s : Gen.DFS) (m : Maze) (o : Oracle), s.is_done = true →
        s.tick m o = (s, { m with highlight_bright := ∅ }, none)) ∧
    (∀ (k : Gen.Kruskal) (m : Maze), k.is_done = true →
        k.tick m = (k, { m with highlight_bright := ∅ }, none)) ∧
    (∀ (s : Gen.Prim) (m : Maze) (o : Oracle), s.is_done = true →
        s.tick m o = (s, { m with highlight_bright := ∅ }, none)) ∧
    (∀ (s : Gen.HuntKill) (m : Maze) (o : Oracle), s.is_done = true →
        s.tick m o = (s, { m with highlight_bright := ∅, highlight_medium := (if s.mode = .Hunt then ∅ else m.highlight_medium) }, none)) :=
  ⟨dfs_done_tick, kruskal_done_tick, prim_done_tick, huntkill_done_tick⟩

theorem C5_done_tick_clears_bright_only_witness :
    Gen.DFS.tick ⟨none, []⟩ mazeC6 idOracle =
      (⟨none, []⟩, { mazeC6 with highlight_bright := ∅ }, none) ∧
    Gen.Kruskal.tick ⟨[], [[⟨0, 0⟩]]⟩ mazeC6 =
      (⟨[], [[⟨0, 0⟩]]⟩, { mazeC6 with highlight_bright := ∅ }, none) ∧
    Gen.Prim.tick ⟨[]⟩ mazeC6 idOracle =
      (⟨[]⟩, { mazeC6 with highlight_bright := ∅ }, none) ∧
    Gen.HuntKill.tick ⟨none, 0, 0, .Hunt⟩ mazeC6 idOracle =
      (⟨none, 0, 0, .Hunt⟩, { mazeC6 with highlight_bright := ∅, highlight_medium := ∅ }, none) :=
  ⟨C5_done_tick_clears_bright_only.1 ⟨none, []⟩ mazeC6 idOracle (by decide),
   C5_done_tick_clears_bright_only.2.1 ⟨[], [[⟨0, 0⟩]]⟩ mazeC6 (by decide),
   C5_done_tick_clears_bright_only.2.2.1 ⟨[]⟩ mazeC6 idOracle (by decide),
   C5_done_tick_clears_bright_only.2.2.2 ⟨none, 0, 0, .Hunt⟩ mazeC6 idOracle (by decide)⟩

/-- **C7** (amended): after every `Ok` tick of the four parent-chain
solvers (BFS, Dijkstra, Greedy, A*), `highlight_medium` equals exactly
the set of coordinates on the chain from the new current node back to
the root, cleared and rebuilt by `highlight_path` during that tick.
The original claim included the DFS solver, which instead maintains
`highlight_medium` incrementally and never inserts the start cell:
refuted by `C7_dfs_medium_not_path_counterexample`. -/
theorem C7_chain_solvers_rebuild_path :
    (∀ (s : Sol.BFS) (m : Maze), (s.tick m).2.2 = none →
        (s.tick m).2.1.highlight_medium =
          ((s.tick m).1.current.coord :: (s.tick m).1.current.previous).toFinset) ∧
    (∀ (s : Sol.Dijkstra) (m : Maze), (s.tick m).2.2 = none →
        (s.tick m).2.1.highlight_medium =
          ((s.tick m).1.current.coord ::
            (s.tick m).1.current.previous.map Prod.fst).toFinset) ∧
    (∀ (s : Sol.Greedy) (m : Maze), (s.tick m).2.2 = none →
        (s.tick m).2.1.highlight_medium =
          ((s.tick m).1.current.coord ::
            (s.tick m).1.current.previous.map Prod.fst).toFinset) ∧
    (∀ (s : Sol.AStar) (m : Maze), (s.tick m).2.2 = none →
        (s.tick m).2.1.highlight_medium =
          ((s.tick m).1.current.coord ::
            (s.tick m).1.current.previous.map Prod.fst).toFinset) :=
  ⟨bfs_tick_medium_path, dijkstra_tick_medium_path, greedy_tick_medium_path, astar_tick_medium_path⟩

theorem C7_chain_solvers_rebuild_path_witness :
    ((Sol.BFS.new mazeSolved12).tick mazeSolved12).2.2 = none ∧
    ((Sol.BFS.new mazeSolved12).tick mazeSolved12).2.1.highlight_medium =
      (((Sol.BFS.new mazeSolved12).tick mazeSolved12).1.current.coord ::
        ((Sol.BFS.new mazeSolved12).tick mazeSolved12).1.current.previous).toFinset :=
  ⟨by decide, C7_chain_solvers_rebuild_path.1 (Sol.BFS.new mazeSolved12) mazeSolved12 (by decide)⟩

/-! C10: panic-freedom of the Eller generator -/

theorem eller_add_coord {s s' : Gen.Eller} {c : Coord} {set : Nat}
    (h : s.add c set = some s') (c' : Coord) :
    s'.coord_to_set c' = if c' = c then some set else s.coord_to_set c' := by
  unfold Gen.Eller.add at h
  simp only [] at h
  split at h
  case _ cs heq =>
    split at h
    case isTrue hcs =>
      cases h
      by_cases hc : c' = c
      · subst hc
        rw [if_pos rfl, heq, hcs]
      · rw [if_neg hc]
    case isFalse hcs =>
      split at h
      case _ => cases h
      case _ l hl =>
        split at h <;>
          (cases h
           by_cases hc : c' = c
           · subst hc
             simp [Gen.Eller.addNew, if_pos rfl]
           · simp [Gen.Eller.addNew, if_neg hc])
  case _ heq =>
    cases h
    by_cases hc : c' = c
    · subst hc
      simp [Gen.Eller.addNew, if_pos rfl]
    · simp [Gen.Eller.addNew, if_neg hc]

theorem eller_add_fields {s s' : Gen.Eller} {c : Coord} {set : Nat}
    (h : s.add c set = some s') :
    s'.current = s.current ∧ s'.mode = s.mode ∧ s'.last_row = s.last_row ∧
      s'.last_set = s.last_set := by
  unfold Gen.Eller.add at h
  simp only [] at h
  split at h
  case _ cs heq =>
    split at h
    case isTrue => cases h; exact ⟨rfl, rfl, rfl, rfl⟩
    case isFalse =>
      split at h
      case _ => cases h
      case _ l hl =>
        split at h <;> (cases h; exact ⟨rfl, rfl, rfl, rfl⟩)
  case _ heq => cases h; exact ⟨rfl, rfl, rfl, rfl⟩

theorem eller_add_isSome {s : Gen.Eller} {c : Coord} {set : Nat}
    (hA : s.SyncA) : (s.add c set).isSome = true := by
  unfold Gen.Eller.add
  simp only []
  split
  case _ cs heq =>
    split
    case isTrue => rfl
    case isFalse hcs =>
      obtain ⟨l, hl, hcl⟩ := hA c cs heq
      rw [hl]
      simp only []
      split <;> rfl
  case _ heq => rfl

theorem eller_addNew_coord (s : Gen.Eller) (c : Coord) (set : Nat) (c' : Coord) :
    (s.addNew c set).coord_to_set c' =
      if c' = c then some set else s.coord_to_set c' := rfl

theorem eller_addNew_sets (s : Gen.Eller) (c : Coord) (set : Nat) (k : Nat) :
    (s.addNew c set).set_to_coords k =
      (if k = set then
        (match s.set_to_coords set with
         | some l => some (l ++ [c])
         | none => some [c])
      else s.set_to_coords k) := rfl

theorem eller_add_SyncA {s s' : Gen.Eller} {c : Coord} {set : Nat}
    (hA : s.SyncA) (h : s.add c set = some s') : s'.SyncA := by
  unfold Gen.Eller.add at h
  simp only [] at h
  split at h
  case _ cs heq =>
    split at h
    case isTrue hcs => cases h; exact hA
    case isFalse hcs =>
      have hsc : set ≠ cs := fun hh => hcs hh.symm
      split at h
      case _ => cases h
      case _ l hl =>
        split at h
        case isTrue hemp =>
          cases h
          intro c0 i h0
          rw [List.isEmpty_iff] at hemp
          simp only [eller_addNew_coord, eller_addNew_sets] at h0 ⊢
          by_cases hc0 : c0 = c
          · rw [if_pos hc0] at h0
            have his : i = set := (Option.some.inj h0).symm
            have hic : i ≠ cs := fun hh => hsc (his ▸ hh)
            rw [if_neg hic, if_pos his, if_neg hsc]
            rcases hs2 : s.set_to_coords set with _ | l2
            · exact ⟨[c], rfl, by rw [hc0]; exact List.mem_singleton.mpr rfl⟩
            · exact ⟨l2 ++ [c], rfl,
                by rw [hc0]; exact List.mem_append_right l2 (List.mem_singleton.mpr rfl)⟩
          · simp only [if_neg hc0] at h0
            obtain ⟨l0, hl0, hmem⟩ := hA c0 i h0
            by_cases hics : i = cs
            · exfalso
              rw [hics, hl] at hl0
              have hml : c0 ∈ l.erase c := by
                rw [← Option.some.inj hl0] at hmem
                exact (List.mem_erase_of_ne hc0).mpr hmem
              rw [hemp] at hml
              cases hml
            · rw [if_neg hics]
              by_cases his : i = set
              · rw [if_pos his, if_neg hsc]
                rw [his] at hl0
                rw [hl0]
                exact ⟨l0 ++ [c], rfl, List.mem_append_left _ hmem⟩
              · rw [if_neg his, if_neg hics]
                exact ⟨l0, hl0, hmem⟩
        case isFalse hemp =>
          cases h
          intro c0 i h0
          simp only [eller_addNew_coord, eller_addNew_sets] at h0 ⊢
          by_cases hc0 : c0 = c
          · rw [if_pos hc0] at h0
            have his : i = set := (Option.some.inj h0).symm
            rw [if_pos his, if_neg hsc]
            rcases hs2 : s.set_to_coords set with _ | l2
            · exact ⟨[c], rfl, by rw [hc0]; exact List.mem_singleton.mpr rfl⟩
            · exact ⟨l2 ++ [c], rfl,
                by rw [hc0]; exact List.mem_append_right l2 (List.mem_singleton.mpr rfl)⟩
          · simp only [if_neg hc0] at h0
            obtain ⟨l0, hl0, hmem⟩ := hA c0 i h0
            by_cases his : i = set
            · rw [if_pos his, if_neg hsc]
              rw [his] at hl0
              rw [hl0]
              exact ⟨l0 ++ [c], rfl, List.mem_append_left _ hmem⟩
            · rw [if_neg his]
              by_cases hics : i = cs
              · rw [if_pos hics]
                rw [hics, hl] at hl0
                refine ⟨l.erase c, rfl, ?_⟩
                rw [← Option.some.inj hl0] at hmem
                exact (List.mem_erase_of_ne hc0).mpr hmem
              · rw [if_neg hics]
                exact ⟨l0, hl0, hmem⟩
  case _ heq =>
    cases h
    intro c0 i h0
    simp only [eller_addNew_coord, eller_addNew_sets] at h0 ⊢
    by_cases hc0 : c0 = c
    · rw [if_pos hc0] at h0
      have his : i = set := (Option.some.inj h0).symm
      rw [if_pos his]
      rcases hs2 : s.set_to_coords set with _ | l2
      · exact ⟨[c], rfl, by rw [hc0]; exact List.mem_singleton.mpr rfl⟩
      · exact ⟨l2 ++ [c], rfl,
          by rw [hc0]; exact List.mem_append_right l2 (List.mem_singleton.mpr rfl)⟩
    · rw [if_neg hc0] at h0
      obtain ⟨l0, hl0, hmem⟩ := hA c0 i h0
      by_cases his : i = set
      · rw [if_pos his]
        rw [his] at hl0
        rw [hl0]
        exact ⟨l0 ++ [c], rfl, List.mem_append_left _ hmem⟩
      · rw [if_neg his]
        exact ⟨l0, hl0, hmem⟩

theorem eller_add_SyncB {s s' : Gen.Eller} {c : Coord} {set : Nat}
    (hB : s.SyncB) (h : s.add c set = some s') : s'.SyncB := by
  have hcoord := eller_add_coord h
  intro i lst h0 c0 hc0in
  rw [hcoord c0]
  by_cases hc0 : c0 = c
  · rw [if_pos hc0]
    rfl
  · rw [if_neg hc0]
    unfold Gen.Eller.add at h
    simp only [] at h
    split at h
    case _ cs heq =>
      split at h
      case isTrue hcs =>
        cases h
        exact hB i lst h0 c0 hc0in
      case isFalse hcs =>
        have hsc : set ≠ cs := fun hh => hcs hh.symm
        split at h
        case _ => cases h
        case _ l hl =>
          split at h
          case isTrue hemp =>
            cases h
            simp only [eller_addNew_sets] at h0
            by_cases hics : i = cs
            · rw [if_pos hics] at h0
              cases h0
            · rw [if_neg hics] at h0
              by_cases his : i = set
              · rw [if_pos his, if_neg hsc] at h0
                split at h0
                case _ l2 hs2 =>
                  cases h0
                  rcases List.mem_append.mp hc0in with hin | hin
                  · exact hB set l2 hs2 c0 hin
                  · exact absurd (List.mem_singleton.mp hin) hc0
                case _ hs2 =>
                  cases h0
                  exact absurd (List.mem_singleton.mp hc0in) hc0
              · rw [if_neg his, if_neg hics] at h0
                exact hB i lst h0 c0 hc0in
          case isFalse hemp =>
            cases h
            simp only [eller_addNew_sets] at h0
            by_cases his : i = set
            · rw [if_pos his, if_neg hsc] at h0
              split at h0
              case _ l2 hs2 =>
                cases h0
                rcases List.mem_append.mp hc0in with hin | hin
                · exact hB set l2 hs2 c0 hin
                · exact absurd (List.mem_singleton.mp hin) hc0
              case _ hs2 =>
                cases h0
                exact absurd (List.mem_singleton.mp hc0in) hc0
            · rw [if_neg his] at h0
              by_cases hics : i = cs
              · rw [if_pos hics] at h0
                cases h0
                exact hB cs l hl c0 (List.mem_of_mem_erase hc0in)
              · rw [if_neg hics] at h0
                exact hB i lst h0 c0 hc0in
    case _ heq =>
      cases h
      simp only [eller_addNew_sets] at h0
      by_cases his : i = set
      · rw [if_pos his] at h0
        split at h0
        case _ l2 hs2 =>
          cases h0
          rcases List.mem_append.mp hc0in with hin | hin
          · exact hB set l2 hs2 c0 hin
          · exact absurd (List.mem_singleton.mp hin) hc0
        case _ hs2 =>
          cases h0
          exact absurd (List.mem_singleton.mp hc0in) hc0
      · rw [if_neg his] at h0
        exact hB i lst h0 c0 hc0in

theorem eller_foldlM_add (i : Nat) (l : List Coord) :
    ∀ s : Gen.Eller, s.SyncA → s.SyncB →
      ∃ s', l.foldlM (fun st cell => st.add cell i) s = some s' ∧
        s'.SyncA ∧ s'.SyncB ∧
        (∀ c', s'.coord_to_set c' =
          if c' ∈ l then some i else s.coord_to_set c') ∧
        s'.current = s.current ∧ s'.mode = s.mode ∧ s'.last_row = s.last_row := by
  induction l with
  | nil =>
    intro s hA hB
    refine ⟨s, rfl, hA, hB, ?_, rfl, rfl, rfl⟩
    intro c'
    rw [if_neg (List.not_mem_nil c')]
  | cons a rest ih =>
    intro s hA hB
    obtain ⟨s1, hs1⟩ := Option.isSome_iff_exists.mp (@eller_add_isSome s a i hA)
    obtain ⟨s', hfold, hA', hB', hspec, hcur, hmode, hlr⟩ :=
      ih s1 (eller_add_SyncA hA hs1) (eller_add_SyncB hB hs1)
    obtain ⟨hc1, hm1, hl1, -⟩ := eller_add_fields hs1
    refine ⟨s', ?_, hA', hB', ?_, hcur.trans hc1, hmode.trans hm1, hlr.trans hl1⟩
    · rw [List.foldlM_cons, hs1]
      exact hfold
    · intro c'
      rw [hspec c', eller_add_coord hs1 c']
      by_cases hmr : c' ∈ rest
      · rw [if_pos hmr, if_pos (List.mem_cons_of_mem a hmr)]
      · rw [if_neg hmr]
        by_cases hca : c' = a
        · rw [if_pos hca, if_pos (hca ▸ List.mem_cons_self a rest)]
        · rw [if_neg hca, if_neg (by
            intro hmem
            rcases List.mem_cons.mp hmem with hh | hh
            · exact hca hh
            · exact hmr hh)]

theorem eller_join_spec {s : Gen.Eller} {c1 c2 : Coord}
    (hA : s.SyncA) (hB : s.SyncB) (h1 : (s.coord_to_set c1).isSome = true)
    (hne : s.same_set c1 c2 = false) :
    ∃ s', s.join c1 c2 = some s' ∧ s'.SyncA ∧ s'.SyncB ∧
      (s'.coord_to_set c2).isSome = true ∧
      (∀ c', (s.coord_to_set c').isSome = true →
        (s'.coord_to_set c').isSome = true) ∧
      (∀ c', (s'.coord_to_set c').isSome = true →
        (s.coord_to_set c').isSome = true ∨ c' = c2) ∧
      s'.current = s.current ∧ s'.mode = s.mode ∧ s'.last_row = s.last_row := by
  obtain ⟨i1, hi1⟩ := Option.isSome_iff_exists.mp h1
  unfold Gen.Eller.join
  rw [hne, hi1]
  simp only [Bool.false_eq_true, if_false]
  rcases hc2 : s.coord_to_set c2 with _ | i2
  · obtain ⟨s', hs'⟩ := Option.isSome_iff_exists.mp (@eller_add_isSome s c2 i1 hA)
    refine ⟨s', hs', eller_add_SyncA hA hs', eller_add_SyncB hB hs', ?_, ?_, ?_, ?_, ?_, ?_⟩
    · rw [eller_add_coord hs' c2, if_pos rfl]
      rfl
    · intro c' hc'
      rw [eller_add_coord hs' c']
      by_cases hcc : c' = c2
      · rw [if_pos hcc]
        rfl
      · rw [if_neg hcc]
        exact hc'
    · intro c' hc'
      rw [eller_add_coord hs' c'] at hc'
      by_cases hcc : c' = c2
      · exact Or.inr hcc
      · rw [if_neg hcc] at hc'
        exact Or.inl hc'
    · exact (eller_add_fields hs').1
    · exact (eller_add_fields hs').2.1
    · exact (eller_add_fields hs').2.2.1
  · obtain ⟨l2, hl2, hmem2⟩ := hA c2 i2 hc2
    simp only []
    rw [hl2]
    obtain ⟨s', hfold, hA', hB', hspec, hcur, hmode, hlr⟩ :=
      eller_foldlM_add i1 l2 s hA hB
    refine ⟨s', hfold, hA', hB', ?_, ?_, ?_, hcur, hmode, hlr⟩
    · rw [hspec c2, if_pos hmem2]
      rfl
    · intro c' hc'
      rw [hspec c']
      by_cases hcl : c' ∈ l2
      · rw [if_pos hcl]
        rfl
      · rw [if_neg hcl]
        exact hc'
    · intro c' hc'
      rw [hspec c'] at hc'
      by_cases hcl : c' ∈ l2
      · exact Or.inl (hB i2 l2 hl2 c' hcl)
      · rw [if_neg hcl] at hc'
        exact Or.inl hc'

theorem valid_coord_iff {c : Coord} {W H : Nat} :
    c.valid_coord W H = true ↔
      0 ≤ c.x ∧ c.x ≤ ((W - 1 : Nat) : Int) ∧ 0 ≤ c.y ∧ c.y ≤ ((H - 1 : Nat) : Int) := by
  unfold Coord.valid_coord
  simp only [Bool.and_eq_true, decide_eq_true_eq]
  tauto

theorem neighbour_west_eq {c n : Coord} {W H : Nat}
    (h : c.neighbour .West W H = some n) :
    n = ⟨c.x - 1, c.y⟩ ∧ 0 ≤ c.x - 1 ∧ 0 ≤ c.y ∧ c.y ≤ ((H - 1 : Nat) : Int) := by
  unfold Coord.neighbour at h
  dsimp only at h
  split at h
  · rename_i hv
    cases h
    rw [valid_coord_iff] at hv
    exact ⟨rfl, hv.1, hv.2.2.1, hv.2.2.2⟩
  · cases h

theorem neighbour_valid {c n : Coord} {d : Direction} {W H : Nat}
    (h : c.neighbour d W H = some n) : n.valid_coord W H = true := by
  cases d <;>
    (unfold Coord.neighbour at h
     simp only [] at h
     split at h
     · rename_i hv
       cases h
       exact hv
     · cases h)

theorem neighbour_west_none {c : Coord} {W H : Nat}
    (hv : c.valid_coord W H = true) (h : c.neighbour .West W H = none) :
    c.x = 0 := by
  rw [valid_coord_iff] at hv
  unfold Coord.neighbour at h
  dsimp only at h
  split at h
  · cases h
  · rename_i hnv
    rw [valid_coord_iff] at hnv
    dsimp only at hnv
    push_neg at hnv
    omega

theorem neighbour_south_none {c : Coord} {W H : Nat}
    (hv : c.valid_coord W H = true) (h : c.neighbour .South W H = none) :
    c.y = ((H - 1 : Nat) : Int) := by
  rw [valid_coord_iff] at hv
  unfold Coord.neighbour at h
  dsimp only at h
  split at h
  · cases h
  · rename_i hnv
    rw [valid_coord_iff] at hnv
    dsimp only at hnv
    push_neg at hnv
    omega

theorem eller_inv_current_mem {s : Gen.Eller} {W H : Nat} (h : s.Inv W H) :
    (s.coord_to_set s.current).isSome = true := by
  have hh := h.2.2.2.1 s.current.x h.2.2.2.2.2 le_rfl
  exact hh

theorem eller_new_set_spec {s : Gen.Eller} {c : Coord}
    (hA : s.SyncA) (hB : s.SyncB) :
    ∃ s', s.new_set c = some s' ∧ s'.SyncA ∧ s'.SyncB ∧
      (∀ c', s'.coord_to_set c' =
        if c' = c then some (s.last_set + 1) else s.coord_to_set c') ∧
      s'.current = s.current ∧ s'.mode = s.mode ∧ s'.last_row = s.last_row := by
  obtain ⟨s1, hs1⟩ := Option.isSome_iff_exists.mp
    (@eller_add_isSome s c (s.last_set + 1) hA)
  refine ⟨{ s1 with last_set := s.last_set + 1 }, ?_, ?_, ?_, ?_, ?_, ?_, ?_⟩
  · unfold Gen.Eller.new_set
    simp only []
    rw [hs1]
    rfl
  · have hh := eller_add_SyncA hA hs1
    exact hh
  · have hh := eller_add_SyncB hB hs1
    exact hh
  · intro c'
    exact eller_add_coord hs1 c'
  · exact (eller_add_fields hs1).1
  · exact (eller_add_fields hs1).2.1
  · exact (eller_add_fields hs1).2.2.1

theorem eller_horizTick_spec {s : Gen.Eller} {m : Maze} {gen : Bool}
    (hmode : s.mode = .Horizontal)
    (hInv : s.Inv m.config.maze_width m.config.maze_height) :
    ∃ r, s.horizTick m gen = some r ∧
      r.1.Inv m.config.maze_width m.config.maze_height := by
  obtain ⟨hA, hB, hV, hR, hG, hx⟩ := hInv
  have hcur : (s.coord_to_set s.current).isSome = true := by
    have hh := hR s.current.x hx le_rfl
    exact hh
  have hcv : s.current.valid_coord m.config.maze_width m.config.maze_height = true :=
    hV _ hcur
  simp only [Gen.Eller.GBound, hmode] at hG
  unfold Gen.Eller.horizTick
  simp only []
  split
  case _ n he =>
    have he' : s.current.neighbour .East m.config.maze_width m.config.maze_height
        = some n := he
    obtain ⟨hn_eq, hxb, hy0, hyb⟩ := neighbour_east_eq he'
    have hnv := neighbour_valid he'
    split
    next hguard =>
      have hss : s.same_set s.current n = false := by
        rw [Bool.and_eq_true] at hguard
        have hg1 := hguard.1
        rwa [Bool.not_eq_true'] at hg1
      obtain ⟨s1, hj, hA1, hB1, hc2, hmono, hconv, hcur1, hmode1, hlr1⟩ :=
        eller_join_spec hA hB hcur hss
      rw [hj]
      simp only []
      refine ⟨_, rfl, hA1, hB1, ?_, ?_, ?_, ?_⟩
      · intro c hc
        rcases hconv c hc with hold | hceq
        · exact hV c hold
        · rw [hceq]
          exact hnv
      · intro x' h0 hle
        try dsimp only at hle ⊢
        rw [hn_eq] at hle ⊢
        try dsimp only at hle ⊢
        by_cases hxx : x' = s.current.x + 1
        · rw [hxx]
          rw [hn_eq] at hc2
          exact hc2
        · have hle' : x' ≤ s.current.x := by omega
          exact hmono _ (hR x' h0 hle')
      · simp only [Gen.Eller.GBound, hmode1, hmode]
        intro c hc
        try dsimp only
        rw [hn_eq]
        try dsimp only
        rcases hconv c hc with hold | hceq
        · have := hG c hold
          omega
        · rw [hceq, hn_eq]
      · try dsimp only
        rw [hn_eq]
        try dsimp only
        omega
    next hguard =>
      split
      next hnone =>
        obtain ⟨s3, hns, hA3, hB3, hspec3, hcur3, hmode3, hlr3⟩ :=
          eller_new_set_spec (c := n) hA hB
        rw [hns]
        simp only []
        have hmono3 : ∀ c', (s.coord_to_set c').isSome = true →
            ((s3.coord_to_set c').isSome = true) := by
          intro c' hc'
          rw [hspec3 c']
          by_cases hcc : c' = n
          · rw [if_pos hcc]
            rfl
          · rw [if_neg hcc]
            exact hc'
        refine ⟨_, rfl, hA3, hB3, ?_, ?_, ?_, ?_⟩
        · intro c hc
          rw [hspec3 c] at hc
          by_cases hcc : c = n
          · rw [hcc]
            exact hnv
          · rw [if_neg hcc] at hc
            exact hV c hc
        · intro x' h0 hle
          try dsimp only at hle ⊢
          rw [hn_eq] at hle ⊢
          try dsimp only at hle ⊢
          by_cases hxx : x' = s.current.x + 1
          · rw [hxx, hspec3]
            rw [hn_eq]
            try dsimp only
            rw [if_pos rfl]
            rfl
          · have hle' : x' ≤ s.current.x := by omega
            exact hmono3 _ (hR x' h0 hle')
        · simp only [Gen.Eller.GBound, hmode3, hmode]
          intro c hc
          try dsimp only
          rw [hn_eq]
          try dsimp only
          rw [hspec3 c] at hc
          by_cases hcc : c = n
          · rw [hcc, hn_eq]
          · rw [if_neg hcc] at hc
            have := hG c hc
            omega
        · try dsimp only
          rw [hn_eq]
          try dsimp only
          omega
      next hnone =>
        have hns : (s.coord_to_set n).isSome = true := by
          rcases hsome : s.coord_to_set n with _ | v
          · exact absurd (by rw [hsome]; rfl) hnone
          · rfl
        refine ⟨_, rfl, hA, hB, hV, ?_, ?_, ?_⟩
        · intro x' h0 hle
          try dsimp only at hle ⊢
          rw [hn_eq] at hle ⊢
          try dsimp only at hle ⊢
          by_cases hxx : x' = s.current.x + 1
          · rw [hxx]
            have hcoordn : (⟨s.current.x + 1, s.current.y⟩ : Coord) = n := by
              rw [hn_eq]
            rw [hcoordn]
            exact hns
          · have hle' : x' ≤ s.current.x := by omega
            exact hR x' h0 hle'
        · simp only [Gen.Eller.GBound, hmode]
          intro c hc
          try dsimp only
          rw [hn_eq]
          try dsimp only
          have := hG c hc
          omega
        · try dsimp only
          rw [hn_eq]
          try dsimp only
          omega
  case _ he =>
    refine ⟨({ s with mode := .Vertical }, m), rfl, hA, hB, hV, hR, ?_, hx⟩
    simp only [Gen.Eller.GBound]
    intro c hc
    have := hG c hc
    constructor
    · omega
    · intro hcy
      omega

theorem eller_vertStep_spec {s : Gen.Eller} {m : Maze} {doJoin : Bool}
    (hA : s.SyncA) (hB : s.SyncB)
    (hcur : (s.coord_to_set s.current).isSome = true)
    (hG : ∀ c, (s.coord_to_set c).isSome = true →
      c.y ≤ s.current.y + 1 ∧ (c.y = s.current.y + 1 → s.current.x < c.x)) :
    ∃ sm, s.vertStep m doJoin = some sm ∧ sm.1.SyncA ∧ sm.1.SyncB ∧
      sm.2.config = m.config ∧
      (∀ c', (s.coord_to_set c').isSome = true →
        (sm.1.coord_to_set c').isSome = true) ∧
      (∀ c', (sm.1.coord_to_set c').isSome = true →
        (s.coord_to_set c').isSome = true ∨
          (c' = Coord.mk s.current.x (s.current.y + 1) ∧
            c'.valid_coord m.config.maze_width m.config.maze_height = true)) ∧
      sm.1.current = s.current ∧ sm.1.mode = s.mode ∧ sm.1.last_row = s.last_row := by
  unfold Gen.Eller.vertStep
  split
  next hdj =>
    split
    case _ n hn =>
      have hn' : s.current.neighbour .South m.config.maze_width m.config.maze_height
          = some n := hn
      obtain ⟨hn_eq, -, -, -⟩ := neighbour_south_eq hn'
      have hnv := neighbour_valid hn'
      have hnd : s.coord_to_set n = none := by
        rcases hnn : s.coord_to_set n with _ | v
        · rfl
        · exfalso
          have hGn := hG n (by rw [hnn]; rfl)
          rw [hn_eq] at hGn
          dsimp only at hGn
          omega
      have hss : s.same_set s.current n = false := by
        unfold Gen.Eller.same_set
        obtain ⟨ci, hci⟩ := Option.isSome_iff_exists.mp hcur
        rw [hnd, hci]
      obtain ⟨s1, hj, hA1, hB1, hc2, hmono, hconv, hcur1, hmode1, hlr1⟩ :=
        eller_join_spec hA hB hcur hss
      rw [hj]
      refine ⟨_, rfl, hA1, hB1, rfl, hmono, ?_, hcur1, hmode1, hlr1⟩
      intro c' hc'
      rcases hconv c' hc' with hold | hceq
      · exact Or.inl hold
      · right
        rw [hceq, hn_eq]
        exact ⟨rfl, by rw [← hn_eq]; exact hnv⟩
    case _ hn =>
      exact ⟨(s, m), rfl, hA, hB, rfl, fun c' h => h, fun c' h => Or.inl h,
        rfl, rfl, rfl⟩
  next hdj =>
    exact ⟨(s, m), rfl, hA, hB, rfl, fun c' h => h, fun c' h => Or.inl h,
      rfl, rfl, rfl⟩

theorem eller_vertTick_spec {s : Gen.Eller} {m : Maze} {gen : Bool}
    (hmode : s.mode = .Vertical)
    (hInv : s.Inv m.config.maze_width m.config.maze_height) :
    ∃ r, s.vertTick m gen = some r ∧
      r.1.Inv m.config.maze_width m.config.maze_height := by
  obtain ⟨hA, hB, hV, hR, hG, hx⟩ := hInv
  have hcur : (s.coord_to_set s.current).isSome = true := by
    have hh := hR s.current.x hx le_rfl
    exact hh
  have hcv : s.current.valid_coord m.config.maze_width m.config.maze_height = true :=
    hV _ hcur
  simp only [Gen.Eller.GBound, hmode] at hG
  obtain ⟨cset, hcset⟩ := Option.isSome_iff_exists.mp hcur
  unfold Gen.Eller.vertTick
  simp only []
  rw [hcset]
  simp only []
  split
  next hL =>
    exfalso
    split at hL
    next hw => cases hL
    next w hw =>
      split at hL
      next hwnone =>
        have hw' : s.current.neighbour .West m.config.maze_width m.config.maze_height
            = some w := hw
        obtain ⟨hw_eq, hx1, -, -⟩ := neighbour_west_eq hw'
        have hwmem : (s.coord_to_set w).isSome = true := by
          have hh := hR (s.current.x - 1) hx1 (by omega)
          rw [hw_eq]
          exact hh
        rw [hwnone] at hwmem
        cases hwmem
      next wset hwset => cases hL
  next lis hL =>
    have hCV : ∃ b, s.connected_vertically cset m = some b := by
      obtain ⟨l, hl, -⟩ := hA s.current cset hcset
      unfold Gen.Eller.connected_vertically
      rw [hl]
      exact ⟨_, rfl⟩
    obtain ⟨conn, hCV⟩ := hCV
    rw [hCV]
    simp only []
    obtain ⟨sm, hvs, hA1, hB1, hconf, hmono, hconv, hcur1, hmode1, hlr1⟩ :=
      @eller_vertStep_spec s m (lis && !conn || gen) hA hB hcur hG
    rw [hvs]
    simp only []
    split
    case _ w hw2 =>
      -- a west neighbour exists: move one cell west
      have hw2' : s.current.neighbour .West m.config.maze_width m.config.maze_height
          = some w := by
        have hh : sm.2.neighbour sm.1.current .West = some w := hw2
        unfold Maze.neighbour at hh
        rw [hconf, hcur1] at hh
        exact hh
      obtain ⟨hw_eq, hx1, -, -⟩ := neighbour_west_eq hw2'
      refine ⟨_, rfl, ?_, ?_, ?_, ?_, ?_, ?_⟩
      · have hh : Gen.Eller.SyncA { sm.1 with current := w } := hA1
        exact hh
      · have hh : Gen.Eller.SyncB { sm.1 with current := w } := hB1
        exact hh
      · intro c hc
        rcases hconv c hc with hold | ⟨hceq, hval⟩
        · exact hV c hold
        · rwa [hceq] at hval ⊢
      · intro x' h0 hle
        try dsimp only at hle ⊢
        rw [hw_eq] at hle ⊢
        try dsimp only at hle ⊢
        exact hmono _ (hR x' h0 (by omega))
      · simp only [Gen.Eller.GBound, hmode1, hmode]
        intro c hc
        try dsimp only
        rw [hw_eq]
        try dsimp only
        rcases hconv c hc with hold | ⟨hceq, -⟩
        · obtain ⟨hb1, hb2⟩ := hG c hold
          refine ⟨by omega, fun h1 => ?_⟩
          have hlt := hb2 h1
          omega
        · rw [hceq]
          try dsimp only
          exact ⟨by omega, fun h1 => by omega⟩
      · try dsimp only
        rw [hw_eq]
        try dsimp only
        omega
    case _ hw2 =>
      -- no west neighbour: wrap to the next row, back to Horizontal mode
      have hwn : s.current.neighbour .West m.config.maze_width m.config.maze_height
          = none := by
        have hh : sm.2.neighbour sm.1.current .West = none := hw2
        unfold Maze.neighbour at hh
        rw [hconf, hcur1] at hh
        exact hh
      have hx0 : s.current.x = 0 := neighbour_west_none hcv hwn
      split
      case _ n2 hs3x =>
        -- a south neighbour exists: move to the start of the next row
        have hs3' : s.current.neighbour .South m.config.maze_width m.config.maze_height
            = some n2 := by
          have hh : sm.2.neighbour sm.1.current .South = some n2 := hs3x
          unfold Maze.neighbour at hh
          rw [hconf, hcur1] at hh
          exact hh
        obtain ⟨hn2_eq, -, -, -⟩ := neighbour_south_eq hs3'
        have hn2v := neighbour_valid hs3'
        split
        next hnone =>
          have hA2 : Gen.Eller.SyncA { sm.1 with mode := Gen.EllerMode.Horizontal } := hA1
          have hB2 : Gen.Eller.SyncB { sm.1 with mode := Gen.EllerMode.Horizontal } := hB1
          obtain ⟨s3, hns, hA3, hB3, hspec3, hcur3, hmode3, hlr3⟩ :=
            eller_new_set_spec (c := n2) hA2 hB2
          split
          next hns0 =>
            exfalso
            have hns0' : ({ sm.1 with mode := Gen.EllerMode.Horizontal } :
                Gen.Eller).new_set n2 = none := hns0
            rw [hns] at hns0'
            cases hns0'
          next s3b hns0 =>
            have hns0' : ({ sm.1 with mode := Gen.EllerMode.Horizontal } :
                Gen.Eller).new_set n2 = some s3b := hns0
            rw [hns] at hns0'
            have hbeq : s3 = s3b := Option.some.inj hns0'
            subst hbeq
            refine ⟨_, rfl, ?_, ?_, ?_, ?_, ?_, ?_⟩
            · have hh : Gen.Eller.SyncA { s3 with current := n2 } := hA3
              exact hh
            · have hh : Gen.Eller.SyncB { s3 with current := n2 } := hB3
              exact hh
            · intro c hc
              have hc' : (s3.coord_to_set c).isSome = true := hc
              rw [hspec3 c] at hc'
              by_cases hcc : c = n2
              · rwa [hcc]
              · rw [if_neg hcc] at hc'
                rcases hconv c hc' with hold | ⟨hceq, hval⟩
                · exact hV c hold
                · rwa [hceq] at hval ⊢
            · intro x' h0 hle
              try dsimp only at hle ⊢
              rw [hn2_eq] at hle ⊢
              try dsimp only at hle ⊢
              have hx'0 : x' = 0 := by omega
              show (s3.coord_to_set _).isSome = true
              rw [hspec3]
              have hcoe : (⟨x', s.current.y + 1⟩ : Coord) = n2 := by
                rw [hn2_eq, hx'0, hx0]
              rw [if_pos hcoe]
              rfl
            · simp only [Gen.Eller.GBound, hmode3]
              intro c hc
              try dsimp only
              rw [hn2_eq]
              try dsimp only
              have hc' : (s3.coord_to_set c).isSome = true := hc
              rw [hspec3 c] at hc'
              by_cases hcc : c = n2
              · rw [hcc, hn2_eq]
              · rw [if_neg hcc] at hc'
                rcases hconv c hc' with hold | ⟨hceq, -⟩
                · have hb := (hG c hold).1
                  omega
                · rw [hceq]
                  try dsimp only
                  try omega
            · try dsimp only
              rw [hn2_eq]
              try dsimp only
              omega
        next hnone =>
          have hn2mem : (sm.1.coord_to_set n2).isSome = true := by
            rcases hsome : sm.1.coord_to_set n2 with _ | v
            · exact absurd (by
                show (sm.1.coord_to_set n2).isNone = true
                rw [hsome]
                rfl) hnone
            · rfl
          refine ⟨_, rfl, ?_, ?_, ?_, ?_, ?_, ?_⟩
          · have hh : Gen.Eller.SyncA
              { sm.1 with mode := Gen.EllerMode.Horizontal, current := n2 } := hA1
            exact hh
          · have hh : Gen.Eller.SyncB
              { sm.1 with mode := Gen.EllerMode.Horizontal, current := n2 } := hB1
            exact hh
          · intro c hc
            rcases hconv c hc with hold | ⟨hceq, hval⟩
            · exact hV c hold
            · rwa [hceq] at hval ⊢
          · intro x' h0 hle
            try dsimp only at hle ⊢
            rw [hn2_eq] at hle ⊢
            try dsimp only at hle ⊢
            have hx'0 : x' = 0 := by omega
            have hcoe : (⟨x', s.current.y + 1⟩ : Coord) = n2 := by
              rw [hn2_eq, hx'0, hx0]
            show (sm.1.coord_to_set _).isSome = true
            rw [hcoe]
            exact hn2mem
          · simp only [Gen.Eller.GBound]
            intro c hc
            try dsimp only
            rw [hn2_eq]
            try dsimp only
            rcases hconv c hc with hold | ⟨hceq, -⟩
            · have hb := (hG c hold).1
              omega
            · rw [hceq]
              try dsimp only
              try omega
          · try dsimp only
            rw [hn2_eq]
            try dsimp only
            omega
      case _ hs3x =>
        -- no south neighbour: last row, stay in place
        have hsn : s.current.neighbour .South m.config.maze_width m.config.maze_height
            = none := by
          have hh : sm.2.neighbour sm.1.current .South = none := hs3x
          unfold Maze.neighbour at hh
          rw [hconf, hcur1] at hh
          exact hh
        have hyL : s.current.y = ((m.config.maze_height - 1 : Nat) : Int) :=
          neighbour_south_none hcv hsn
        refine ⟨_, rfl, ?_, ?_, ?_, ?_, ?_, ?_⟩
        · have hh : Gen.Eller.SyncA { sm.1 with mode := Gen.EllerMode.Horizontal } := hA1
          exact hh
        · have hh : Gen.Eller.SyncB { sm.1 with mode := Gen.EllerMode.Horizontal } := hB1
          exact hh
        · intro c hc
          rcases hconv c hc with hold | ⟨hceq, hval⟩
          · exact hV c hold
          · rwa [hceq] at hval ⊢
        · intro x' h0 hle
          try dsimp only at hle ⊢
          rw [hcur1] at hle ⊢
          exact hmono _ (hR x' h0 hle)
        · simp only [Gen.Eller.GBound]
          intro c hc
          try dsimp only
          rw [hcur1]
          rcases hconv c hc with hold | ⟨hceq, hval⟩
          · have hcvc := hV c hold
            rw [valid_coord_iff] at hcvc
            omega
          · exfalso
            rw [hceq] at hval
            rw [valid_coord_iff] at hval
            try dsimp only at hval
            omega
        · try dsimp only
          rw [hcur1]
          exact hx

theorem eller_horizTick_cfg {s : Gen.Eller} {m : Maze} {gen : Bool} {W H : Nat}
    (hW : m.config.maze_width = W) (hH : m.config.maze_height = H)
    (hmode : s.mode = .Horizontal) (hInv : s.Inv W H) :
    ∃ r, s.horizTick m gen = some r ∧ r.1.Inv W H := by
  subst hW
  subst hH
  exact eller_horizTick_spec hmode hInv

theorem eller_vertTick_cfg {s : Gen.Eller} {m : Maze} {gen : Bool} {W H : Nat}
    (hW : m.config.maze_width = W) (hH : m.config.maze_height = H)
    (hmode : s.mode = .Vertical) (hInv : s.Inv W H) :
    ∃ r, s.vertTick m gen = some r ∧ r.1.Inv W H := by
  subst hW
  subst hH
  exact eller_vertTick_spec hmode hInv

theorem eller_tick_spec {s : Gen.Eller} {m : Maze} {o : Oracle}
    (hInv : s.Inv m.config.maze_width m.config.maze_height) :
    ∃ r, s.tick m o = some r ∧
      r.1.Inv m.config.maze_width m.config.maze_height := by
  unfold Gen.Eller.tick
  simp only []
  rcases hm : s.mode with _ | _
  · try simp only [hm]
    try simp only []
    exact eller_horizTick_cfg rfl rfl hm hInv
  · try simp only [hm]
    try simp only []
    exact eller_vertTick_cfg rfl rfl hm hInv

theorem eller_new_inv (m : Maze) :
    (Gen.Eller.new m).Inv m.config.maze_width m.config.maze_height := by
  refine ⟨?_, ?_, ?_, ?_, ?_, ?_⟩
  · intro c i h0
    simp only [Gen.Eller.new] at h0 ⊢
    by_cases hc : c = (⟨0, 0⟩ : Coord)
    · rw [if_pos hc] at h0
      have hi : i = 0 := (Option.some.inj h0).symm
      rw [hi]
      exact ⟨[⟨0, 0⟩], if_pos rfl, by rw [hc]; exact List.mem_singleton.mpr rfl⟩
    · rw [if_neg hc] at h0
      cases h0
  · intro i l h0 c hcl
    simp only [Gen.Eller.new] at h0 ⊢
    by_cases hi : i = 0
    · rw [if_pos hi] at h0
      have hl : l = [⟨0, 0⟩] := (Option.some.inj h0).symm
      rw [hl] at hcl
      rw [if_pos (List.mem_singleton.mp hcl)]
      rfl
    · rw [if_neg hi] at h0
      cases h0
  · intro c hc
    simp only [Gen.Eller.new] at hc
    by_cases hcc : c = (⟨0, 0⟩ : Coord)
    · rw [hcc, valid_coord_iff]
      refine ⟨le_refl 0, ?_, le_refl 0, ?_⟩ <;> exact Int.ofNat_nonneg _
    · rw [if_neg hcc] at hc
      cases hc
  · intro x' h0 hle
    simp only [Gen.Eller.new] at hle ⊢
    have hx0 : x' = 0 := le_antisymm hle h0
    rw [if_pos (by rw [hx0])]
    rfl
  · simp only [Gen.Eller.GBound, Gen.Eller.new]
    intro c hc
    by_cases hcc : c = (⟨0, 0⟩ : Coord)
    · rw [hcc]
    · rw [if_neg hcc] at hc
      cases hc
  · exact le_refl 0

theorem eller_reach_inv {cfg : Config} {s : Gen.Eller}
    (hr : Gen.EllerReach cfg s) :
    s.Inv cfg.maze_width cfg.maze_height := by
  induction hr with
  | init m hm =>
    subst hm
    exact eller_new_inv m
  | step s m o s' m' hreach hm htick ih =>
    subst hm
    obtain ⟨r, hr', hrInv⟩ := eller_tick_spec (o := o) ih
    rw [htick] at hr'
    have hre : (s', m') = r := Option.some.inj hr'
    rw [← hre] at hrInv
    exact hrInv

/-- **C10**: the Eller generator never panics from any state reachable
by `Eller::new` followed by any sequence of successful ticks on mazes
of a fixed configuration with positive dimensions: `tick` always
returns `Some` (the `unreachable!()` in `Eller::join` is never taken
and every map index succeeds), by the inductive invariant
`Eller.Inv`. -/
theorem C10_eller_never_panics (cfg : Config) (hW : 0 < cfg.maze_width)
    (hH : 0 < cfg.maze_height) (s : Gen.Eller) (hs : Gen.EllerReach cfg s)
    (m : Maze) (o : Oracle) (hm : m.config = cfg) :
    (Gen.Eller.tick s m o).isSome = true := by
  subst hm
  obtain ⟨r, hr, -⟩ := eller_tick_spec (o := o) (eller_reach_inv hs)
  rw [hr]
  rfl

theorem C10_eller_never_panics_witness :
    (Gen.Eller.tick (Gen.Eller.new mazeC6) mazeC6 idOracle).isSome = true :=
  C10_eller_never_panics (Config.mk 2 1 2) (by decide) (by decide)
    (Gen.Eller.new mazeC6) (Gen.EllerReach.init mazeC6 rfl) mazeC6 idOracle rfl

end MazeCode
